import Mathlib

/-!
Verification of the journal2day1 conversion pipeline (Apple Journal HTML
export to DayOne archive).  The definitions below are a shallow embedding of
the Go sources:

* `internal/parser/applejournal.go`  (HTML entry parsing, resource lookup)
* `internal/converter/converter.go`  (mapping to DayOne records, staging,
  archiving)
* `internal/models/applejournal.go`  (data model, Cocoa timestamp adapter)

File-system state, directory listings and IO failures are modelled by an
explicit `World` record; Go strings are modelled as Lean `String`
(character-for-character; all inputs of interest are ASCII, where Go byte
indexing and Lean character indexing agree); `time.Time` is modelled as the
integer number of nanoseconds since 0001-01-01T00:00:00 UTC (Go zero time =
`0`, matching `Time.IsZero`).  `float64` metadata values are modelled as
exact rationals; the one place where genuine binary floating point matters
(`CocoaTimestampToTime`) is discussed at its definition.
-/

namespace J2D

/-! ## Go string helpers -/

/-- Embeds Go `strings.Contains(s, sub)`: substring test. -/
def goContains (s sub : String) : Bool :=
  s.data.tails.any (fun t => sub.data.isPrefixOf t)

/-- Embeds Go `strings.HasPrefix(s, pre)`. -/
def goHasPrefix (s pre : String) : Bool :=
  pre.data.isPrefixOf s.data

/-- Embeds Go `strings.HasSuffix(s, suf)`. -/
def goHasSuffix (s suf : String) : Bool :=
  suf.data.isSuffixOf s.data

/-- The ASCII whitespace characters Go `unicode.IsSpace` accepts (the
inputs at hand contain no non-ASCII whitespace). -/
def isGoSpace (c : Char) : Bool :=
  c = ' ' || c = '\t' || c = '\n' || c = '\r' ||
    c = Char.ofNat 11 || c = Char.ofNat 12

/-- Embeds Go `strings.TrimSpace`: whitespace dropped from both ends. -/
def goTrimSpace (s : String) : String :=
  ⟨((s.data.dropWhile isGoSpace).reverse.dropWhile isGoSpace).reverse⟩

/-- Embeds Go `strings.ToLower` for the ASCII inputs at hand. -/
def goToLower (s : String) : String :=
  ⟨s.data.map Char.toLower⟩

/-- Embeds Go `strings.ToUpper` for the ASCII inputs at hand. -/
def goToUpper (s : String) : String :=
  ⟨s.data.map Char.toUpper⟩

/-- Embeds Go `strings.EqualFold` for ASCII inputs: case-insensitive
equality. -/
def goEqualFold (s t : String) : Bool :=
  goToLower s == goToLower t

/-- Embeds Go `strings.TrimPrefix(s, pre)`. -/
def goTrimPrefix (s pre : String) : String :=
  if pre.data.isPrefixOf s.data then ⟨s.data.drop pre.data.length⟩ else s

/-- Embeds Go `strings.ReplaceAll(s, "-", "")` for the one-character
pattern used by the converter: every dash is removed. -/
def goRemoveDashes (s : String) : String :=
  ⟨s.data.filter (fun c => c ≠ '-')⟩

/-- Embeds Go `path/filepath.Ext`: the suffix of the final path element
starting at its last dot, or the empty string if that element has no dot. -/
def goExt (p : String) : String :=
  let revBase := p.data.reverse.takeWhile (fun c => c ≠ '/')
  if revBase.any (fun c => c = '.') then
    ⟨ '.' :: (revBase.takeWhile (fun c => c ≠ '.')).reverse ⟩
  else ""

/-- Embeds Go `path/filepath.Base` for the non-empty slash-separated paths
this program produces: trailing separators are dropped and the final
element is returned. -/
def goBase (p : String) : String :=
  let rev := p.data.reverse.dropWhile (fun c => c = '/')
  let base := rev.takeWhile (fun c => c ≠ '/')
  if base = [] then "/" else ⟨base.reverse⟩

/-- Embeds Go `strings.Join(parts, sep)`. -/
def goJoin (parts : List String) (sep : String) : String :=
  String.intercalate sep parts

/-! ## Calendar arithmetic (the parts of Go `time` the program uses).

`time.Time` is modelled as `Int`: nanoseconds since 0001-01-01T00:00:00
UTC, the Go zero time.  `Time.IsZero` is the test against `0`. -/

/-- Nanoseconds per second. -/
def nsPerSecond : Int := 1000000000

/-- Days from 1970-01-01 to the civil date `(y, m, d)` (proleptic
Gregorian), for years `y ≥ 1` as produced by the date parsers below. -/
def daysFromCivil (y m d : Int) : Int :=
  let y1 := if m ≤ 2 then y - 1 else y
  let era := y1 / 400
  let yoe := y1 - era * 400
  let mp := if m > 2 then m - 3 else m + 9
  let doy := (153 * mp + 2) / 5 + d - 1
  let doe := yoe * 365 + yoe / 4 - yoe / 100 + doy
  era * 146097 + doe - 719468

/-- Days from the Go zero time (0001-01-01) to 1970-01-01. -/
def unixEpochDays : Int := 719162

/-- The `time.Time` (in this model: nanoseconds since the zero time) of
midnight UTC on the civil date `(y, m, d)`; embeds `time.Date(y, m, d, 0,
0, 0, 0, time.UTC)` for in-range arguments. -/
def goDateNanos (y m d : Int) : Int :=
  (daysFromCivil y m d + unixEpochDays) * 86400 * nsPerSecond

/-- Is `y` a leap year (Gregorian)? -/
def isLeapYear (y : Int) : Bool :=
  (y % 4 == 0 && y % 100 != 0) || y % 400 == 0

/-- Number of days of month `m` (1-12) in year `y`; embeds the range check
Go `time.Parse` applies to a parsed day-of-month. -/
def daysIn (m y : Int) : Int :=
  if m = 2 then (if isLeapYear y then 29 else 28)
  else if m = 4 ∨ m = 6 ∨ m = 9 ∨ m = 11 then 30
  else 31

/-- Civil date `(y, m, d)` from a count of days since 1970-01-01
(nonnegative counts only, which covers every date this program formats). -/
def civilFromDays (z : Int) : Int × Int × Int :=
  let z1 := z + 719468
  let era := z1 / 146097
  let doe := z1 - era * 146097
  let yoe := (doe - doe / 1460 + doe / 36524 - doe / 146096) / 365
  let y := yoe + era * 400
  let doy := doe - (365 * yoe + yoe / 4 - yoe / 100)
  let mp := (5 * doy + 2) / 153
  let d := doy - (153 * mp + 2) / 5 + 1
  let m := if mp < 10 then mp + 3 else mp - 9
  (if m ≤ 2 then y + 1 else y, m, d)

/-- Left-pad the decimal representation of a nonnegative integer with
zeros to `w` digits; embeds the fixed-width fields of Go `Time.Format`. -/
def padNum (w : Nat) (n : Int) : String :=
  let s := toString n.toNat
  ⟨List.replicate (w - s.length) '0' ++ s.data⟩

/-- Embeds `t.UTC().Format("2006-01-02T15:04:05Z")` (the `iso8601Format`
constant of the converter) for nonnegative `t`. -/
def formatISO8601 (t : Int) : String :=
  let secs := t / nsPerSecond
  let days := secs / 86400
  let sod := secs % 86400
  let ymd := civilFromDays (days - unixEpochDays)
  padNum 4 ymd.1 ++ "-" ++ padNum 2 ymd.2.1 ++ "-" ++ padNum 2 ymd.2.2 ++
    "T" ++ padNum 2 (sod / 3600) ++ ":" ++ padNum 2 (sod / 60 % 60) ++ ":" ++
    padNum 2 (sod % 60) ++ "Z"

/-- `appleCocoaEpoch` of `internal/models/applejournal.go`:
`time.Date(2001, 1, 1, 0, 0, 0, 0, time.UTC)` in this model. -/
def appleCocoaEpoch : Int := goDateNanos 2001 1 1

/-- Truncation toward zero of a rational, embedding Go conversion of a
floating-point value to the integer type `time.Duration`. -/
def truncTowardZero (q : Rat) : Int :=
  if q < 0 then ⌈q⌉ else ⌊q⌋

/-- Embeds `models.CocoaTimestampToTime`:
`appleCocoaEpoch.Add(time.Duration(timestamp * float64(time.Second)))`.
The source multiplies in `float64` and converts to the 64-bit integer
`time.Duration`; this model performs the multiplication exactly over the
rationals and truncates toward zero, abstracting from binary-float
rounding and from the 64-bit range. -/
def CocoaTimestampToTime (timestamp : Rat) : Int :=
  appleCocoaEpoch + truncTowardZero (timestamp * (nsPerSecond : Rat))

/-! ## Go `time.Parse` for the layouts the parser uses.

`parsePageHeaderDate` tries the layouts `"Monday, 2 January 2006"`,
`"Monday, 02 January 2006"`, `"2 January 2006"`, `"02 January 2006"`;
`extractDateFromFilename` parses `"2006-01-02"`.  The relevant pieces of
Go layout parsing: a long weekday or month name is matched
case-insensitively against the name table, first table entry that is a
prefix of the input wins, and a parsed weekday is checked for syntax but
otherwise ignored; layout `2` takes one digit, or two when two digits
follow; layout `02` takes exactly two digits; layout `2006` takes exactly
four digits; the whole input must be consumed; finally the day is checked
against the length of the parsed month. -/

/-- Go `longDayNames`. -/
def longDayNames : List String :=
  ["Sunday", "Monday", "Tuesday", "Wednesday", "Thursday", "Friday",
   "Saturday"]

/-- Go `longMonthNames` (index in this list + 1 = month number). -/
def longMonthNames : List String :=
  ["January", "February", "March", "April", "May", "June", "July",
   "August", "September", "October", "November", "December"]

/-- ASCII-case-insensitive equality of character lists, as used by the
name lookup of Go layout parsing. -/
def ciEq (a b : List Char) : Bool :=
  a.map Char.toLower == b.map Char.toLower

/-- Go `lookup(tab, val)`: the first table entry that is a
case-insensitive prefix of the input; returns its index and the rest of
the input. -/
def lookupName (tab : List String) (val : List Char) : Option (Nat × List Char) :=
  go tab 0 where
  go : List String → Nat → Option (Nat × List Char)
    | [], _ => none
    | nm :: rest, i =>
      if ciEq nm.data (val.take nm.data.length) && nm.data.length ≤ val.length
      then some (i, val.drop nm.data.length)
      else go rest (i + 1)

/-- Match a literal piece of the layout. -/
def matchLit (lit : List Char) (val : List Char) : Option (List Char) :=
  if lit.isPrefixOf val then some (val.drop lit.length) else none

/-- Parse exactly `k` decimal digits (Go fixed-width numeric layout
fields, e.g. `02`, `2006`). -/
def parseFixedDigits (k : Nat) (val : List Char) : Option (Int × List Char) :=
  let ds := val.take k
  if ds.length = k && ds.all Char.isDigit then
    some (((ds.foldl (fun n c => n * 10 + (c.toNat - 48)) 0 : Nat) : Int), val.drop k)
  else none

/-- Parse a Go layout-`2` day: one digit, or two when the second character
is also a digit. -/
def parseFlexDay (val : List Char) : Option (Int × List Char) :=
  match val with
  | c1 :: c2 :: rest =>
    if c1.isDigit && c2.isDigit then
      some (((c1.toNat - 48) * 10 + (c2.toNat - 48) : Nat), rest)
    else if c1.isDigit then some (((c1.toNat - 48 : Nat) : Int), c2 :: rest)
    else none
  | [c1] => if c1.isDigit then some (((c1.toNat - 48 : Nat) : Int), []) else none
  | [] => none

/-- Parse `" January 2006"` (month name then four-digit year), the common
tail of all four page-header layouts, requiring the input to be fully
consumed, and validate the day range as Go `time.Parse` does.  Returns
the resulting `time.Time` of midnight UTC on success. -/
def finishMonthYear (day : Int) (val : List Char) : Option Int := do
  let val ← matchLit [' '] val
  let (mi, val) ← lookupName longMonthNames val
  let val ← matchLit [' '] val
  let (y, val) ← parseFixedDigits 4 val
  if val = [] ∧ 1 ≤ day ∧ day ≤ daysIn ((mi : Int) + 1) y then
    some (goDateNanos y ((mi : Int) + 1) day)
  else none

/-- Go `time.Parse("Monday, 2 January 2006", s)` (with `zeroPad = true`:
layout `"Monday, 02 January 2006"` instead), restricted to the
success/failure behaviour and resulting date. -/
def parseWeekdayLayout (zeroPad : Bool) (s : List Char) : Option Int := do
  let (_, rest) ← lookupName longDayNames s
  let rest ← matchLit [',', ' '] rest
  let (d, rest) ← if zeroPad then parseFixedDigits 2 rest else parseFlexDay rest
  finishMonthYear d rest

/-- Go `time.Parse("2 January 2006", s)` (with `zeroPad = true`: layout
`"02 January 2006"`). -/
def parseBareLayout (zeroPad : Bool) (s : List Char) : Option Int := do
  let (d, rest) ← if zeroPad then parseFixedDigits 2 s else parseFlexDay s
  finishMonthYear d rest

/-- Go `time.Parse("2006-01-02", s)`: four-digit year, dash, two-digit
month, dash, two-digit day, nothing else; month and day range-checked. -/
def parseYMD (s : List Char) : Option Int := do
  let (y, rest) ← parseFixedDigits 4 s
  let rest ← matchLit ['-'] rest
  let (m, rest) ← parseFixedDigits 2 rest
  let rest ← matchLit ['-'] rest
  let (d, rest) ← parseFixedDigits 2 rest
  if rest = [] ∧ 1 ≤ m ∧ m ≤ 12 ∧ 1 ≤ d ∧ d ≤ daysIn m y then
    some (goDateNanos y m d)
  else none

/-! ## Data model (`internal/models/applejournal.go`) and the world.

`World` models everything the program reads from or writes to the file
system: the directory listings, file contents, metadata sidecars, and
success/failure of each IO operation the converter performs.  The MD5
digest of `crypto/md5` is carried as an abstract deterministic function of
the file bytes. -/

/-- `models.AppleJournalResourceMeta` (the `date` field is a JSON number,
`float64` in Go, modelled as an exact rational). -/
structure ResourceMeta where
  date : Rat
  placeName : String
deriving DecidableEq

/-- `models.AppleJournalAsset`. -/
structure AppleJournalAsset where
  id : String
  type : String
  filePath : String
  extension : String
deriving DecidableEq

/-- `models.AppleJournalEntry` (`Date` is the nanosecond model of
`time.Time`; the zero time is `0`). -/
structure AppleJournalEntry where
  date : Int
  title : String
  body : String
  assets : List AppleJournalAsset
  filePath : String
deriving DecidableEq

/-- The HTML document tree built by `golang.org/x/net/html.Parse`:
element nodes with a tag name and attributes, text nodes, and the
remaining node kinds (document, comment, doctype) which the program never
inspects beyond walking their children. -/
inductive HNode where
  | text (data : String)
  | element (tag : String) (attrs : List (String × String)) (children : List HNode)
  | other (children : List HNode)

/-- One directory entry of `<basePath>/Entries` together with the outcome
of opening and parsing it (`.error` models an `os.Open` or `html.Parse`
failure). -/
structure EntryFile where
  name : String
  isDir : Bool
  doc : Except String HNode

/-- The file-system world one conversion run sees. -/
structure World where
  /-- The Apple Journal export directory (`basePath` of the parser). -/
  basePath : String
  /-- The temporary staging directory created by `os.MkdirTemp`. -/
  tmpDir : String
  /-- Does `os.ReadDir(basePath/Entries)` succeed? -/
  entriesOk : Bool
  /-- The listing of `basePath/Entries`, in directory order. -/
  entryFiles : List EntryFile
  /-- Does `os.ReadDir(basePath/Resources)` succeed? -/
  resourcesOk : Bool
  /-- The listing of `basePath/Resources` (file names, directory order). -/
  resourceNames : List String
  /-- Reading and unmarshalling `basePath/Resources/<id>.json`;
  `none` models a read or JSON-parse failure. -/
  metaOf : String → Option ResourceMeta
  /-- Opening and reading the file at a path; `none` models an
  `os.Open`/read failure. -/
  bytesOf : String → Option (List Nat)
  /-- The `crypto/md5` hex digest, as a function of the file bytes. -/
  md5 : List Nat → String
  /-- Does creating and writing the staged copy at a destination path
  succeed? -/
  stagingWriteOk : String → Bool
  /-- Does `os.MkdirTemp` succeed? -/
  mkdirTempOk : Bool
  /-- Does `os.MkdirAll(tmpDir/photos)` succeed? -/
  mkdirPhotosOk : Bool
  /-- Does `os.MkdirAll(tmpDir/videos)` succeed? -/
  mkdirVideosOk : Bool
  /-- Does writing `<journalName>.json` into the staging area succeed? -/
  writeJsonOk : Bool
  /-- Does `os.Create(outputPath)` for the ZIP archive succeed? -/
  zipCreateOk : Bool
  /-- Do all the per-file ZIP walk steps succeed? -/
  zipWalkOk : Bool

/-! ## Export parser (`internal/parser/applejournal.go`) -/

/-- The attribute lookup of `getAttr` over an attribute list: the value
of the first attribute with the given key, `""` when absent. -/
def getAttrOf (attrs : List (String × String)) (key : String) : String :=
  match attrs.find? (fun a => a.1 == key) with
  | some a => a.2
  | none => ""

/-- `getAttr(n, key)`: the value of the first attribute with the given
key, `""` when absent (non-element nodes have no attributes). -/
def getAttr (n : HNode) (key : String) : String :=
  match n with
  | .element _ attrs _ => getAttrOf attrs key
  | _ => ""

mutual

/-- `getTextContent(n)`: a text node's data, otherwise the concatenated
text content of the children. -/
def getTextContent : HNode → String
  | .text d => d
  | .element _ _ cs => getTextContentList cs
  | .other cs => getTextContentList cs

/-- The children loop of `getTextContent`. -/
def getTextContentList : List HNode → String
  | [] => ""
  | c :: rest => getTextContent c ++ getTextContentList rest

end

mutual

/-- `collectBodyText(n, parts)`: every descendant text node, trimmed,
with blank results dropped, in document order. -/
def collectBodyText : HNode → List String
  | .text d => if goTrimSpace d ≠ "" then [goTrimSpace d] else []
  | .element _ _ cs => collectBodyTextList cs
  | .other cs => collectBodyTextList cs

/-- The children loop of `collectBodyText`. -/
def collectBodyTextList : List HNode → List String
  | [] => []
  | c :: rest => collectBodyText c ++ collectBodyTextList rest

end

/-- `extractBodyText(n)`: the collected text parts joined by newlines. -/
def extractBodyText (n : HNode) : String :=
  goJoin (collectBodyText n) "\n"

/-- `extractImgSrc(n)` for an `img` element: its `src` attribute unless
empty or an inline `data:` URI, paired with the extension. -/
def extractImgSrc (n : HNode) : String × String :=
  let src := getAttr n "src"
  if src = "" || goContains src "data:" then ("", "")
  else (src, goTrimPrefix (goExt src) ".")

/-- `findSourceElement(n)`: the `src` attribute of the first direct
`source` child element. -/
def findSourceElement : List HNode → String
  | [] => ""
  | c :: rest =>
    match c with
    | .element "source" _ _ => getAttr c "src"
    | _ => findSourceElement rest

/-- `extractVideoSrc(n)` for a `video` element: its own `src` attribute,
or the first nested `source` child's, paired with the extension. -/
def extractVideoSrc (n : HNode) : String × String :=
  let src := getAttr n "src"
  let src := if src = "" then findSourceElement (match n with
    | .element _ _ cs => cs
    | _ => []) else src
  if src = "" then ("", "") else (src, goTrimPrefix (goExt src) ".")

/-- `extractMediaSrc(n)`: dispatch on the element tag. -/
def extractMediaSrc (n : HNode) : String × String :=
  match n with
  | .element "img" _ _ => extractImgSrc n
  | .element "video" _ _ => extractVideoSrc n
  | _ => ("", "")

mutual

/-- `findMediaSrcInNode(n)`: first usable media source in the subtree,
checking the node itself before its children. -/
def findMediaSrcInNode : HNode → String × String
  | .text _ => ("", "")
  | .other cs => findMediaSrcInList cs
  | .element tag attrs cs =>
    let r := extractMediaSrc (.element tag attrs cs)
    if r.1 ≠ "" then r else findMediaSrcInList cs

/-- The children loop of `findMediaSrcInNode`. -/
def findMediaSrcInList : List HNode → String × String
  | [] => ("", "")
  | c :: rest =>
    let r := findMediaSrcInNode c
    if r.1 ≠ "" then r else findMediaSrcInList rest

end

/-- The `typeMap` of `extractAssetType`, in source-listing order.  The Go
source iterates a `map[string]string`, whose iteration order is
unspecified and varies between runs; `extractAssetTypeWith` therefore
takes the iteration order as an explicit parameter, and any permutation
of this list is a possible behaviour of the compiled program. -/
def typeMapList : List (String × String) :=
  [("assetType_photo", "photo"),
   ("assetType_livePhoto", "photo"),
   ("assetType_video", "video"),
   ("assetType_genericMap", "map"),
   ("assetType_motionActivity", "activity"),
   ("assetType_audio", "audio"),
   ("assetType_stateOfMind", "stateOfMind")]

/-- `extractAssetType(class)` under a given map-iteration order: the
first marker that is a substring of the class attribute wins; no match
gives `"unknown"`. -/
def extractAssetTypeWith : List (String × String) → String → String
  | [], _ => "unknown"
  | e :: rest, cls =>
    if goContains cls e.1 then e.2 else extractAssetTypeWith rest cls

/-- `extractAssetType(class)` at the source-listing iteration order (one
of the possible orders of the Go map range). -/
def extractAssetType (cls : String) : String :=
  extractAssetTypeWith typeMapList cls

/-- `findResourceFile(uuid)`: the first listing entry of the resources
directory whose name starts with the id and is not a `.json` sidecar,
returned as a `../Resources/...` relative path plus extension; empty on a
listing failure or when nothing matches. -/
def findResourceFile (w : World) (uuid : String) : String × String :=
  if ¬w.resourcesOk then ("", "")
  else
    match w.resourceNames.find?
        (fun nm => goHasPrefix nm uuid && !goHasSuffix nm ".json") with
    | some nm => ("../Resources/" ++ nm, goTrimPrefix (goExt nm) ".")
    | none => ("", "")

/-- `parseGridItem(n)`: an asset from a grid-item block, skipped when the
block has no `id` attribute. -/
def parseGridItem (w : World) (n : HNode) : Option AppleJournalAsset :=
  let id := getAttr n "id"
  if id = "" then none
  else
    let assetType := extractAssetType (getAttr n "class")
    let fe := findMediaSrcInNode n
    let fe := if fe.1 = "" then findResourceFile w id else fe
    some { id := id, type := assetType, filePath := fe.1, extension := fe.2 }

/-- `parsePageHeaderDate(text)`: trim, then try the four layouts in
order; the zero time when none matches. -/
def parsePageHeaderDate (text : String) : Int :=
  let t := (goTrimSpace text).data
  (parseWeekdayLayout false t <|> parseWeekdayLayout true t <|>
    parseBareLayout false t <|> parseBareLayout true t).getD 0

/-- The `^(\d{4}-\d{2}-\d{2})_` anchored pattern of
`extractDateFromFilename`: the ten leading date characters when the base
name starts with them followed by an underscore. -/
def fnameDatePrefix : List Char → Option (List Char)
  | y1 :: y2 :: y3 :: y4 :: h1 :: m1 :: m2 :: h2 :: d1 :: d2 :: u :: _ =>
    if y1.isDigit && y2.isDigit && y3.isDigit && y4.isDigit && h1 == '-' &&
        m1.isDigit && m2.isDigit && h2 == '-' && d1.isDigit && d2.isDigit &&
        u == '_' then
      some [y1, y2, y3, y4, h1, m1, m2, h2, d1, d2]
    else none
  | _ => none

/-- `extractDateFromFilename(filePath)`: a leading `YYYY-MM-DD_` in the
base name, parsed with layout `2006-01-02`; the zero time when the
pattern is absent or the parse fails. -/
def extractDateFromFilename (filePath : String) : Int :=
  match fnameDatePrefix (goBase filePath).data with
  | none => 0
  | some ds => (parseYMD ds).getD 0

/-- `LoadResourceMeta(uuid)`: the unmarshalled
`basePath/Resources/<uuid>.json` sidecar, `none` on a read or parse
error. -/
def LoadResourceMeta (w : World) (uuid : String) : Option ResourceMeta :=
  w.metaOf uuid

/-- `extractDateFromAssets(assets)`: the first asset's metadata date when
present and positive, converted through the Cocoa adapter; the zero time
otherwise. -/
def extractDateFromAssets (w : World) (assets : List AppleJournalAsset) : Int :=
  match assets with
  | [] => 0
  | a :: _ =>
    match LoadResourceMeta w a.id with
    | none => 0
    | some meta => if meta.date ≤ 0 then 0 else CocoaTimestampToTime meta.date

/-- `processDivElement(n, entry)`: the class-marker dispatch of the tree
walk, in source order: page header, title, grid item, body text. -/
def processDivElement (w : World) (n : HNode) (e : AppleJournalEntry) :
    AppleJournalEntry :=
  let cls := getAttr n "class"
  if goContains cls "pageHeader" then
    { e with date := parsePageHeaderDate (getTextContent n) }
  else if goContains cls "title" then
    { e with title := goTrimSpace (getTextContent n) }
  else if goContains cls "gridItem" then
    match parseGridItem w n with
    | some a => { e with assets := e.assets ++ [a] }
    | none => e
  else if goContains cls "bodyText" then
    let t := extractBodyText n
    if t ≠ "" then { e with body := t } else e
  else e

mutual

/-- `extractFromNode(n, entry)`: depth-first walk; an element node is
processed (div dispatch) before its children are visited. -/
def extractFromNode (w : World) : HNode → AppleJournalEntry → AppleJournalEntry
  | .text _, e => e
  | .other cs, e => extractFromList w cs e
  | .element tag attrs cs, e =>
    let e1 := if tag = "div" then processDivElement w (.element tag attrs cs) e
              else e
    extractFromList w cs e1

/-- The sibling loop of `extractFromNode`. -/
def extractFromList (w : World) : List HNode → AppleJournalEntry → AppleJournalEntry
  | [], e => e
  | c :: rest, e => extractFromList w rest (extractFromNode w c e)

end

/-- The entry as populated by the tree walk of `ParseEntry`, before the
date fallbacks. -/
def extractEntry (w : World) (filePath : String) (doc : HNode) :
    AppleJournalEntry :=
  extractFromNode w doc
    { date := 0, title := "", body := "", assets := [], filePath := filePath }

/-- `ParseEntry(filePath)`: open and parse the document (failures carried
by the `Except` argument), walk the tree, then resolve a still-missing
date from the first asset's metadata and then from the file name. -/
def ParseEntry (w : World) (filePath : String) (docR : Except String HNode) :
    Except String AppleJournalEntry :=
  match docR with
  | .error e => .error e
  | .ok doc =>
    let entry := extractEntry w filePath doc
    let entry :=
      if entry.date = 0 then
        { entry with date := extractDateFromAssets w entry.assets }
      else entry
    let entry :=
      if entry.date = 0 then
        { entry with date := extractDateFromFilename filePath }
      else entry
    .ok entry

/-- `ParseAll()`: list the entries directory (error if unreadable), skip
subdirectories and non-`.html` names, parse each document in order; the
first failing document aborts the whole batch. -/
def ParseAll (w : World) : Except String (List AppleJournalEntry) :=
  if ¬w.entriesOk then .error "failed to read entries directory"
  else go w.entryFiles where
  go : List EntryFile → Except String (List AppleJournalEntry)
    | [] => .ok []
    | f :: rest =>
      if f.isDir || !goHasSuffix f.name ".html" then go rest
      else
        match ParseEntry w (w.basePath ++ "/Entries/" ++ f.name) f.doc with
        | .error e => .error ("failed to parse entry " ++ f.name ++ ": " ++ e)
        | .ok entry => (go rest).map (fun es => entry :: es)

/-- `GetResourceFilePath(uuid)`: full path of the first non-`.json`
listing entry whose name starts with the id; `""` on a listing failure or
when nothing matches. -/
def GetResourceFilePath (w : World) (uuid : String) : String :=
  if ¬w.resourcesOk then ""
  else
    match w.resourceNames.find?
        (fun nm => goHasPrefix nm uuid && !goHasSuffix nm ".json") with
    | some nm => w.basePath ++ "/Resources/" ++ nm
    | none => ""

/-! ## DayOne data model (`internal/models/dayone.go`) -/

/-- `models.DayOnePhoto`. -/
structure DayOnePhoto where
  identifier : String
  type : String
  md5 : String
  fileSize : Int
  orderInEntry : Nat
  creationDevice : String
  duration : Int
  favorite : Bool
  isSketch : Bool
  date : String
deriving DecidableEq

/-- `models.DayOneVideo`. -/
structure DayOneVideo where
  identifier : String
  type : String
  md5 : String
  fileSize : Int
  orderInEntry : Nat
  creationDevice : String
  duration : Int
  favorite : Bool
  date : String
deriving DecidableEq

/-- `models.DayOneEntry`. -/
structure DayOneEntry where
  uuid : String
  creationDate : String
  modifiedDate : String
  text : String
  starred : Bool
  isPinned : Bool
  isAllDay : Bool
  duration : Int
  timeZone : String
  creationDevice : String
  photos : List DayOnePhoto
  videos : List DayOneVideo
deriving DecidableEq

/-- `models.DayOneExport`. -/
structure DayOneExport where
  version : String
  entries : List DayOneEntry
deriving DecidableEq

/-! ## Converter (`internal/converter/converter.go`) -/

/-- `shouldSkipAsset(assetType)`: membership in the `skipTypes` set. -/
def shouldSkipAsset (assetType : String) : Bool :=
  ["map", "activity", "stateOfMind"].contains assetType

/-- `isVideoExtension(ext)`: membership of the lowercased extension in
the `videoExts` set. -/
def isVideoExtension (ext : String) : Bool :=
  ["mov", "mp4", "m4v", "avi"].contains (goToLower ext)

/-- `normalizeExtension(ext)`: `jpg` (any case) becomes `jpeg`, all other
extensions are lowercased. -/
def normalizeExtension (ext : String) : String :=
  if goEqualFold ext "jpg" then "jpeg" else goToLower ext

/-- `getDestinationPath(ext, md5Hash, dirs)`: `<checksum>.<normalized
extension>` under `videos/` or `photos/` of the staging area, decided by
the extension. -/
def getDestinationPath (w : World) (ext md5Hash : String) : String :=
  let normalizedExt := normalizeExtension (goToLower ext)
  if isVideoExtension ext then
    w.tmpDir ++ "/videos/" ++ md5Hash ++ "." ++ normalizedExt
  else
    w.tmpDir ++ "/photos/" ++ md5Hash ++ "." ++ normalizedExt

/-- `copyMediaFile(srcPath, ext, dirs)`: open and read the source (its
bytes give the MD5 digest and, via `Stat`, the size), then copy it to the
checksum-addressed staging destination; any IO failure is an error. -/
def copyMediaFile (w : World) (srcPath ext : String) :
    Except String (String × Int) :=
  match w.bytesOf srcPath with
  | none => .error "failed to open source"
  | some bs =>
    let md5Hash := w.md5 bs
    if w.stagingWriteOk (getDestinationPath w ext md5Hash) then
      .ok (md5Hash, (bs.length : Int))
    else .error "failed to create destination"

/-- `getAssetDate(assetID, fallbackDate)`: the metadata date through the
Cocoa adapter when present and positive, otherwise the fallback. -/
def getAssetDate (w : World) (assetID fallbackDate : String) : String :=
  match LoadResourceMeta w assetID with
  | none => fallbackDate
  | some meta =>
    if meta.date ≤ 0 then fallbackDate
    else formatISO8601 (CocoaTimestampToTime meta.date)

/-- `createPhoto(id, ext, md5Hash, size, order, date)`. -/
def createPhoto (id ext md5Hash : String) (size : Int) (order : Nat)
    (date : String) : DayOnePhoto :=
  { identifier := id, type := normalizeExtension ext, md5 := md5Hash,
    fileSize := size, orderInEntry := order,
    creationDevice := "journal2day1", duration := 0, favorite := false,
    isSketch := false, date := date }

/-- `createVideo(id, ext, md5Hash, size, order, date)`. -/
def createVideo (id ext md5Hash : String) (size : Int) (order : Nat)
    (date : String) : DayOneVideo :=
  { identifier := id, type := normalizeExtension ext, md5 := md5Hash,
    fileSize := size, orderInEntry := order,
    creationDevice := "journal2day1", duration := 0, favorite := false,
    date := date }

/-- `processAsset(asset, order, dirs, creationDate)`: resolve the backing
file by a fresh resource-store lookup on the asset id (an unresolved or
uncopyable asset yields nothing), then build a video or photo record —
and, for photos, the markdown placeholder line. -/
def processAsset (w : World) (asset : AppleJournalAsset) (order : Nat)
    (creationDate : String) :
    Option DayOnePhoto × Option DayOneVideo × String :=
  let resourcePath := GetResourceFilePath w asset.id
  if resourcePath = "" then (none, none, "")
  else
    match copyMediaFile w resourcePath asset.extension with
    | .error _ => (none, none, "")
    | .ok (md5Hash, fileSize) =>
      let assetDate := getAssetDate w asset.id creationDate
      let identifier := goToUpper (goRemoveDashes asset.id)
      let ext := goToLower asset.extension
      if isVideoExtension ext then
        (none, some (createVideo identifier ext md5Hash fileSize order assetDate), "")
      else
        (some (createPhoto identifier ext md5Hash fileSize order assetDate),
         none,
         "![](dayone-moment://" ++ identifier ++ ")")

/-- The indexed loop of `processAssets`, over the `(index, asset)` pairs
of `range entry.Assets`: a skipped asset contributes nothing; an emitted
photo is appended together with its placeholder line, an emitted video is
appended to the video list.  The loop index `i` — the position in the
full asset list — is what is passed to `processAsset` as the order. -/
def processAssetsAux (w : World) (creationDate : String) :
    List (Nat × AppleJournalAsset) →
    List DayOnePhoto × List DayOneVideo × List String
  | [] => ([], [], [])
  | (i, asset) :: rest =>
    let acc := processAssetsAux w creationDate rest
    if shouldSkipAsset asset.type then acc
    else
      let r := processAsset w asset i creationDate
      let acc1 := match r.1 with
        | some photo => (photo :: acc.1, acc.2.1, r.2.2 :: acc.2.2)
        | none => acc
      match r.2.1 with
      | some video => (acc1.1, video :: acc1.2.1, acc1.2.2)
      | none => acc1

/-- `processAssets(entry, dirs, creationDate)`. -/
def processAssets (w : World) (entry : AppleJournalEntry)
    (creationDate : String) :
    List DayOnePhoto × List DayOneVideo × List String :=
  processAssetsAux w creationDate entry.assets.enum

/-- `buildEntryText(entry, photoRefs)`: heading from the title, body
paragraph, newline-joined photo placeholders; the non-empty parts joined
by blank lines. -/
def buildEntryText (entry : AppleJournalEntry) (photoRefs : List String) :
    String :=
  let textParts : List String := []
  let textParts := if entry.title ≠ "" then textParts ++ ["# " ++ entry.title]
                   else textParts
  let textParts := if entry.body ≠ "" then textParts ++ [entry.body]
                   else textParts
  let textParts := if photoRefs.length > 0 then
                     textParts ++ [goJoin photoRefs "\n"]
                   else textParts
  goJoin textParts "\n\n"

/-- `convertEntry(entry, dirs)`.  The fresh `uuid.NewString()` value and
the `time.Now()` instant are inputs of the model: `u` is the random
UUID drawn for this entry, `now` the already-formatted modification
date. -/
def convertEntry (w : World) (u now tz : String)
    (entry : AppleJournalEntry) : DayOneEntry :=
  let creationDate := formatISO8601 entry.date
  let pv := processAssets w entry creationDate
  { uuid := goToUpper (goRemoveDashes u),
    creationDate := creationDate,
    modifiedDate := now,
    text := buildEntryText entry pv.2.2,
    starred := false, isPinned := false, isAllDay := false, duration := 0,
    timeZone := tz, creationDevice := "journal2day1",
    photos := pv.1, videos := pv.2.1 }

/-- `convertEntries(entries, dirs)`: one DayOne entry per parsed entry,
in order; `uuidAt i` is the random UUID drawn for the `i`-th entry. -/
def convertEntries (w : World) (uuidAt : Nat → String) (now tz : String)
    (entries : List AppleJournalEntry) : DayOneExport :=
  { version := "1.0",
    entries := (entries.enum.map (fun p => convertEntry w (uuidAt p.1) now tz p.2)) }

/-- The outcome of one `Convert` run: the returned error or export, and
whether `os.Create(outputPath)` ran and succeeded (that is, whether a
file — complete or partial — now exists at the requested archive
path). -/
structure ConvertOutcome where
  result : Except String DayOneExport
  archiveFileCreated : Bool

/-- `Convert(outputPath)`: parse everything, create the staging area and
its `photos`/`videos` directories, map the entries, write the JSON, and
package the staging tree into the output ZIP.  Each failing step aborts
with an error; the staged media copies themselves happen inside
`convertEntries` (see `processAsset`, whose copy failures do not surface
here). -/
def Convert (w : World) (uuidAt : Nat → String) (now tz : String) :
    ConvertOutcome :=
  match ParseAll w with
  | .error e => { result := .error ("failed to parse entries: " ++ e),
                  archiveFileCreated := false }
  | .ok entries =>
    if ¬w.mkdirTempOk then
      { result := .error "failed to create temp dir", archiveFileCreated := false }
    else if ¬w.mkdirPhotosOk then
      { result := .error "failed to create photos dir", archiveFileCreated := false }
    else if ¬w.mkdirVideosOk then
      { result := .error "failed to create videos dir", archiveFileCreated := false }
    else
      let dayOneExport := convertEntries w uuidAt now tz entries
      if ¬w.writeJsonOk then
        { result := .error "failed to write JSON", archiveFileCreated := false }
      else if ¬w.zipCreateOk then
        { result := .error "failed to create ZIP file", archiveFileCreated := false }
      else if ¬w.zipWalkOk then
        { result := .error "failed to write to ZIP", archiveFileCreated := true }
      else
        { result := .ok dayOneExport, archiveFileCreated := true }

/-! ## Dispatch predicates and block collectors for the tree walk.

`processDivElement` dispatches on the class attribute with an if-chain;
the predicates below name its branches, and the collectors list, in
depth-first pre-order, the text carried by the blocks each branch
consumes.  They exist to state theorems about the walk. -/

/-- The class attributes dispatched to the page-header branch. -/
def isPageHeaderCls (cls : String) : Bool :=
  goContains cls "pageHeader"

/-- The class attributes dispatched to the body-text branch (all earlier
branches of the if-chain must fail first). -/
def isBodyTextCls (cls : String) : Bool :=
  !goContains cls "pageHeader" && !goContains cls "title" &&
    !goContains cls "gridItem" && goContains cls "bodyText"

mutual

/-- The extracted body text of every div dispatched to the body-text
branch, in depth-first pre-order. -/
def bodyTexts : HNode → List String
  | .text _ => []
  | .other cs => bodyTextsList cs
  | .element tag attrs cs =>
    (if tag == "div" && isBodyTextCls (getAttrOf attrs "class") then
      [extractBodyText (.element tag attrs cs)]
    else []) ++ bodyTextsList cs

/-- The sibling loop of `bodyTexts`. -/
def bodyTextsList : List HNode → List String
  | [] => []
  | c :: rest => bodyTexts c ++ bodyTextsList rest

end

mutual

/-- The text content of every div dispatched to the page-header branch,
in depth-first pre-order. -/
def pageHeaderTexts : HNode → List String
  | .text _ => []
  | .other cs => pageHeaderTextsList cs
  | .element tag attrs cs =>
    (if tag == "div" && isPageHeaderCls (getAttrOf attrs "class") then
      [getTextContent (.element tag attrs cs)]
    else []) ++ pageHeaderTextsList cs

/-- The sibling loop of `pageHeaderTexts`. -/
def pageHeaderTextsList : List HNode → List String
  | [] => []
  | c :: rest => pageHeaderTexts c ++ pageHeaderTextsList rest

end

/-- The body-overwrite discipline of the walk, as a fold: a non-empty
text replaces the accumulated body, an empty one leaves it. -/
def lastNonEmptyFrom (b : String) (ts : List String) : String :=
  ts.foldl (fun acc t => if t = "" then acc else t) b

/-- The date-overwrite discipline of the walk, as a fold: every
page-header block unconditionally replaces the date. -/
def overwriteFold (b : Int) (ts : List String) : Int :=
  ts.foldl (fun _ t => parsePageHeaderDate t) b

/-- The two date-fallback steps at the end of `ParseEntry`, as one
function of the entry produced by the tree walk. -/
def resolveDate (w : World) (fp : String) (e0 : AppleJournalEntry) : Int :=
  let d1 := if e0.date = 0 then extractDateFromAssets w e0.assets
            else e0.date
  if d1 = 0 then extractDateFromFilename fp else d1

/-! ## Concrete worlds, documents and helper notions used by the
claim theorems below -/

/-- The markers of an iteration order that match a class attribute. -/
def matchingMarkers (order : List (String × String)) (cls : String) :
    List (String × String) :=
  order.filter (fun e => goContains cls e.1)

/-- A second possible iteration order of the Go `typeMap`, with the video
marker tried first. -/
def typeMapVideoFirst : List (String × String) :=
  [("assetType_video", "video"),
   ("assetType_photo", "photo"),
   ("assetType_livePhoto", "photo"),
   ("assetType_genericMap", "map"),
   ("assetType_motionActivity", "activity"),
   ("assetType_audio", "audio"),
   ("assetType_stateOfMind", "stateOfMind")]

/-- Whether `processAsset` emits a record for an asset, and of which
kind: `none` when the resource-store lookup or the staging copy fails
(the asset is dropped), otherwise `some` of the video/photo routing
decision.  This mirrors the branch structure of `processAsset`. -/
def emitKind (w : World) (a : AppleJournalAsset) : Option Bool :=
  if GetResourceFilePath w a.id = "" then none
  else
    match copyMediaFile w (GetResourceFilePath w a.id) a.extension with
    | .error _ => none
    | .ok _ => some (isVideoExtension (goToLower a.extension))

/-- A non-skipped asset that yields a photo record. -/
def emitsPhoto (w : World) (a : AppleJournalAsset) : Bool :=
  !shouldSkipAsset a.type && emitKind w a == some false

/-- A non-skipped asset that yields a video record. -/
def emitsVideo (w : World) (a : AppleJournalAsset) : Bool :=
  !shouldSkipAsset a.type && emitKind w a == some true

/-- The world of the C1 counterexample: a resource store holding a
single backing file `BBB.jpg`, all staging IO succeeding. -/
def wC1 : World :=
  { basePath := "/j", tmpDir := "/t",
    entriesOk := true, entryFiles := [],
    resourcesOk := true, resourceNames := ["BBB.jpg"],
    metaOf := fun _ => none,
    bytesOf := fun _ => some [7, 7],
    md5 := fun _ => "d41d8cd9",
    stagingWriteOk := fun _ => true,
    mkdirTempOk := true, mkdirPhotosOk := true, mkdirVideosOk := true,
    writeJsonOk := true, zipCreateOk := true, zipWalkOk := true }

/-- The entry of the C1 counterexample: a skipped map asset followed by
one resolvable photo asset. -/
def entryC1 : AppleJournalEntry :=
  { date := 0, title := "", body := "",
    assets := [{ id := "XXX", type := "map", filePath := "", extension := "" },
               { id := "BBB", type := "photo", filePath := "",
                 extension := "jpg" }],
    filePath := "" }

/-- The world of the C1 amended witness: two backing files, both
resolvable. -/
def wC1w : World :=
  { wC1 with resourceNames := ["AAA.jpg", "BBB.mov"] }

/-- The entry of the C1 amended witness: a photo asset and a video
asset, both resolvable, none skipped. -/
def entryC1w : AppleJournalEntry :=
  { date := 0, title := "", body := "",
    assets := [{ id := "AAA", type := "photo", filePath := "",
                 extension := "jpg" },
               { id := "BBB", type := "video", filePath := "",
                 extension := "mov" }],
    filePath := "" }

/-- The document of the C2 counterexample: one grid item referencing
asset `AAA`. -/
def docC2 : HNode :=
  .element "div" [("id", "AAA"), ("class", "gridItem assetType_photo")] []

/-- The world of the C2 counterexample: one parsable entry, a backing
file `AAA.jpg` in the resource store, but every staging write fails. -/
def wC2 : World :=
  { basePath := "/j", tmpDir := "/t",
    entriesOk := true,
    entryFiles := [{ name := "2025-01-02_x.html", isDir := false,
                     doc := .ok docC2 }],
    resourcesOk := true, resourceNames := ["AAA.jpg"],
    metaOf := fun _ => none,
    bytesOf := fun _ => some [1, 2],
    md5 := fun _ => "9e107d9d",
    stagingWriteOk := fun _ => false,
    mkdirTempOk := true, mkdirPhotosOk := true, mkdirVideosOk := true,
    writeJsonOk := true, zipCreateOk := true, zipWalkOk := true }

/-- The first entry parsed from the C2 world. -/
def esC2 : List AppleJournalEntry :=
  [{ date := goDateNanos 2025 1 2, title := "", body := "",
     assets := [{ id := "AAA", type := "photo",
                  filePath := "../Resources/AAA.jpg", extension := "jpg" }],
     filePath := "/j/Entries/2025-01-02_x.html" }]

/-- The world of the C7 witness: the resource store is empty, so the
entry's one asset reference dangles. -/
def wC7 : World :=
  { wC2 with resourceNames := [], stagingWriteOk := fun _ => true }

/-- The entry parsed from the C7 world: the grid-item asset is present
(with no resolved source file), the entry date falls back to the file
name. -/
def esC7 : List AppleJournalEntry :=
  [{ date := goDateNanos 2025 1 2, title := "", body := "",
     assets := [{ id := "AAA", type := "photo", filePath := "",
                  extension := "" }],
     filePath := "/j/Entries/2025-01-02_x.html" }]

/-- Lowercase hexadecimal digits, the alphabet of `uuid.NewString`. -/
def hexLowerChars : List Char :=
  "0123456789abcdef".data

/-- The canonical textual form of a value returned by
`uuid.NewString()`: five dash-separated groups of lowercase hex digits
with lengths 8-4-4-4-12. -/
def IsCanonicalUUID (u : String) : Prop :=
  ∃ a b c d e : List Char,
    a.length = 8 ∧ b.length = 4 ∧ c.length = 4 ∧ d.length = 4 ∧
    e.length = 12 ∧
    (∀ x ∈ a ++ b ++ c ++ d ++ e, x ∈ hexLowerChars) ∧
    u.data = a ++ '-' :: (b ++ '-' :: (c ++ '-' :: (d ++ '-' :: e)))

/-- The document of the C4 witness world. -/
def docC4 : HNode :=
  .element "div" [("id", "AA-BB"), ("class", "gridItem assetType_photo")] []

/-- The world of the C4 witness: one entry with one resolvable photo
asset. -/
def wC4 : World :=
  { basePath := "/j", tmpDir := "/t",
    entriesOk := true,
    entryFiles := [{ name := "2025-01-02_x.html", isDir := false,
                     doc := .ok docC4 }],
    resourcesOk := true, resourceNames := ["AA-BB.jpg"],
    metaOf := fun _ => none,
    bytesOf := fun _ => some [3, 4, 5],
    md5 := fun _ => "0cc175b9",
    stagingWriteOk := fun _ => true,
    mkdirTempOk := true, mkdirPhotosOk := true, mkdirVideosOk := true,
    writeJsonOk := true, zipCreateOk := true, zipWalkOk := true }

/-- The entry parsed from the C4 witness world. -/
def esC4 : List AppleJournalEntry :=
  [{ date := goDateNanos 2025 1 2, title := "", body := "",
     assets := [{ id := "AA-BB", type := "photo",
                  filePath := "../Resources/AA-BB.jpg",
                  extension := "jpg" }],
     filePath := "/j/Entries/2025-01-02_x.html" }]

/-- The document of the C5 witness: one grid-item asset, no page
header. -/
def docC5 : HNode :=
  .other [.element "div"
    [("id", "RR"), ("class", "gridItem assetType_photo")] []]

/-- The world of the C5 witness: asset `RR` has a backing file and a
metadata sidecar with the positive Cocoa date `5`. -/
def wC5 : World :=
  { basePath := "/j", tmpDir := "/t", entriesOk := true, entryFiles := [],
    resourcesOk := true, resourceNames := ["RR.jpg"],
    metaOf := fun id =>
      if id = "RR" then some { date := 5, placeName := "" } else none,
    bytesOf := fun _ => some [1], md5 := fun _ => "m",
    stagingWriteOk := fun _ => true,
    mkdirTempOk := true, mkdirPhotosOk := true, mkdirVideosOk := true,
    writeJsonOk := true, zipCreateOk := true, zipWalkOk := true }

/-- The document of the C9 witness: two page-header blocks, the first
parsable, the second not. -/
def docC9 : HNode :=
  .other [.element "html" []
    [.element "div" [("class", "pageHeader")] [.text "2 January 2006"],
     .element "div" [("class", "pageHeader")] [.text "not a date"]]]

/-- The world of the C9 witness: no resources at all. -/
def wC9 : World :=
  { basePath := "/j", tmpDir := "/t", entriesOk := true, entryFiles := [],
    resourcesOk := false, resourceNames := [], metaOf := fun _ => none,
    bytesOf := fun _ => none, md5 := fun _ => "",
    stagingWriteOk := fun _ => true,
    mkdirTempOk := true, mkdirPhotosOk := true, mkdirVideosOk := true,
    writeJsonOk := true, zipCreateOk := true, zipWalkOk := true }

/-! ## Claim C3: asset-kind derivation -/

/-- `extractAssetTypeWith` returns the kind of the first matching marker
of the iteration order. -/
theorem extractAssetTypeWith_eq_filter (order : List (String × String))
    (cls : String) :
    extractAssetTypeWith order cls =
      match matchingMarkers order cls with
      | [] => "unknown"
      | e :: _ => e.2 := by
  induction order with
  | nil => rfl
  | cons hd tl ih =>
    by_cases h : goContains cls hd.1
    · simp [extractAssetTypeWith, matchingMarkers, List.filter_cons, h]
    · simp only [extractAssetTypeWith, matchingMarkers, List.filter_cons, h,
        Bool.false_eq_true, if_false] at ih ⊢
      exact ih

/-- C3, counterexample: `extractAssetType` iterates a Go `map`, whose
iteration order is unspecified; on a class attribute carrying both the
photo and the video marker, two legal iteration orders of the very same
map produce different kinds, so the derived kind is not a deterministic
function of the class string when several markers match. -/
theorem extractAssetType_not_deterministic :
    List.Perm typeMapVideoFirst typeMapList ∧
    extractAssetTypeWith typeMapList
        "gridItem assetType_photo assetType_video" = "photo" ∧
    extractAssetTypeWith typeMapVideoFirst
        "gridItem assetType_photo assetType_video" = "video" := by
  refine ⟨by decide, by decide, by decide⟩

/-- C3, amended: under every iteration order of the marker table, a class
attribute matching no marker yields `"unknown"`, a matching one yields
the kind of one of its matching markers, and in particular when exactly
one marker matches (the only configurations the exporter emits) the kind
is determined: order-independence holds exactly then. -/
theorem extractAssetType_amended (order : List (String × String))
    (cls : String) (hperm : List.Perm order typeMapList) :
    (matchingMarkers typeMapList cls = [] →
      extractAssetTypeWith order cls = "unknown") ∧
    (matchingMarkers typeMapList cls ≠ [] →
      extractAssetTypeWith order cls ∈
        (matchingMarkers typeMapList cls).map (fun e => e.2)) ∧
    (∀ k v, matchingMarkers typeMapList cls = [(k, v)] →
      extractAssetTypeWith order cls = v) := by
  have hpf : List.Perm (matchingMarkers order cls)
      (matchingMarkers typeMapList cls) := by
    unfold matchingMarkers
    exact hperm.filter (fun e => goContains cls e.1)
  refine ⟨?_, ?_, ?_⟩
  · intro h
    rw [h] at hpf
    have : matchingMarkers order cls = [] := List.perm_nil.mp hpf
    rw [extractAssetTypeWith_eq_filter, this]
  · intro h
    rw [extractAssetTypeWith_eq_filter]
    rcases hm : matchingMarkers order cls with _ | ⟨e, rest⟩
    · rw [hm] at hpf
      exact absurd (List.perm_nil.mp hpf.symm) h
    · rw [hm] at hpf
      have : e ∈ matchingMarkers typeMapList cls :=
        hpf.mem_iff.mp (List.mem_cons_self e rest)
      exact List.mem_map_of_mem (fun e => e.2) this
  · intro k v h
    rw [h] at hpf
    have : matchingMarkers order cls = [(k, v)] := List.perm_singleton.mp hpf
    rw [extractAssetTypeWith_eq_filter, this]

/-! ## Claim C1: the `orderInEntry` position values -/

/-- The `orderInEntry` values of the photo and of the video records of
the asset loop are exactly the positions, in the full indexed asset
list, of the assets that emit a record of that kind. -/
theorem processAssetsAux_orders (w : World) (cd : String)
    (l : List (Nat × AppleJournalAsset)) :
    (processAssetsAux w cd l).1.map (fun p => p.orderInEntry) =
      (l.filter (fun p => emitsPhoto w p.2)).map (fun p => p.1) ∧
    (processAssetsAux w cd l).2.1.map (fun v => v.orderInEntry) =
      (l.filter (fun p => emitsVideo w p.2)).map (fun p => p.1) := by
  induction l with
  | nil => exact ⟨rfl, rfl⟩
  | cons hd tl ih =>
    obtain ⟨i, a⟩ := hd
    by_cases hs : shouldSkipAsset a.type
    · simpa [processAssetsAux, List.filter_cons, emitsPhoto, emitsVideo, hs]
        using ih
    · rcases hk : emitKind w a with _ | b
      · have hpa : processAsset w a i cd = (none, none, "") := by
          unfold emitKind at hk
          unfold processAsset
          by_cases hr : GetResourceFilePath w a.id = ""
          · simp [hr]
          · simp only [if_neg hr] at hk ⊢
            rcases hc : copyMediaFile w (GetResourceFilePath w a.id) a.extension
              with e | v
            · simp [hc]
            · simp [hc] at hk
        simp [processAssetsAux, List.filter_cons, emitsPhoto, emitsVideo, hs,
          hk, hpa, ih]
      · obtain ⟨mf, hc, hr, hb⟩ :
            ∃ mf, copyMediaFile w (GetResourceFilePath w a.id) a.extension =
                .ok mf ∧
              ¬GetResourceFilePath w a.id = "" ∧
              b = isVideoExtension (goToLower a.extension) := by
          have hk2 := hk
          unfold emitKind at hk2
          by_cases hr : GetResourceFilePath w a.id = ""
          · simp [hr] at hk2
          · simp only [if_neg hr] at hk2
            rcases hc : copyMediaFile w (GetResourceFilePath w a.id) a.extension
              with e | mf
            · simp [hc] at hk2
            · simp only [hc] at hk2
              exact ⟨mf, rfl, hr, (Option.some.inj hk2).symm⟩
        subst hb
        have hpa :
            processAsset w a i cd =
              (if isVideoExtension (goToLower a.extension) then
                (none,
                 some (createVideo (goToUpper (goRemoveDashes a.id))
                   (goToLower a.extension) mf.1 mf.2 i
                   (getAssetDate w a.id cd)), "")
              else
                (some (createPhoto (goToUpper (goRemoveDashes a.id))
                   (goToLower a.extension) mf.1 mf.2 i
                   (getAssetDate w a.id cd)),
                 none,
                 "![](dayone-moment://" ++ goToUpper (goRemoveDashes a.id)
                   ++ ")")) := by
          unfold processAsset
          simp only [if_neg hr, hc]
        by_cases hv : isVideoExtension (goToLower a.extension)
        · simp [processAssetsAux, List.filter_cons, emitsPhoto, emitsVideo,
            hs, hk, hv, hpa, createVideo, ih]
        · simp [processAssetsAux, List.filter_cons, emitsPhoto, emitsVideo,
            hs, hk, hv, hpa, createPhoto, ih]

/-- An asset known to emit a record has the video/photo routing decision
as its emit kind. -/
theorem emitKind_of_ne_none (w : World) (a : AppleJournalAsset)
    (h : emitKind w a ≠ none) :
    emitKind w a = some (isVideoExtension (goToLower a.extension)) := by
  unfold emitKind at h ⊢
  by_cases hr : GetResourceFilePath w a.id = ""
  · simp [hr] at h
  · simp only [if_neg hr] at h ⊢
    rcases hc : copyMediaFile w (GetResourceFilePath w a.id) a.extension
      with e | mf
    · simp [hc] at h
    · simp [hc]

/-- The second component of an indexed pair is a member of the
enumerated list. -/
theorem snd_mem_of_mem_enum {α : Type} {l : List α} {p : Nat × α}
    (h : p ∈ l.enum) : p.2 ∈ l := by
  have := List.mem_map_of_mem Prod.snd h
  rwa [List.enum_map_snd] at this

/-- C1, counterexample: the loop passes the raw index in the full asset
list as the position, so with a skipped map asset in front the only
emitted record carries `orderInEntry = 1` — the combined photo+video
position sequence is `[1]`, which is not the zero-based gap-free
sequence `[0]` the claim asserts. -/
theorem orderInEntry_not_zero_based :
    (processAssets wC1 entryC1 "2025-01-01T00:00:00Z").1.map
        (fun p => p.orderInEntry) = [1] ∧
    (processAssets wC1 entryC1 "2025-01-01T00:00:00Z").2.1 = [] ∧
    ¬ List.Perm
        ((processAssets wC1 entryC1 "2025-01-01T00:00:00Z").1.map
            (fun p => p.orderInEntry) ++
          (processAssets wC1 entryC1 "2025-01-01T00:00:00Z").2.1.map
            (fun v => v.orderInEntry))
        (List.range
          ((processAssets wC1 entryC1 "2025-01-01T00:00:00Z").1.length +
            (processAssets wC1 entryC1 "2025-01-01T00:00:00Z").2.1.length)) := by
  refine ⟨by decide, by decide, by decide⟩

/-- C1, amended: each emitted photo/video record carries as
`orderInEntry` the index of its asset in the entry's **full** asset list
(skipped and unresolvable assets included in the count), so the combined
sequence is strictly increasing in document order but need not be
zero-based or gap-free; it is exactly `0, 1, …, n-1` when every asset of
the entry is non-skipped and emits a record. -/
theorem orderInEntry_amended (w : World) (entry : AppleJournalEntry)
    (cd : String) :
    (processAssets w entry cd).1.map (fun p => p.orderInEntry) =
      (entry.assets.enum.filter (fun p => emitsPhoto w p.2)).map
        (fun p => p.1) ∧
    (processAssets w entry cd).2.1.map (fun v => v.orderInEntry) =
      (entry.assets.enum.filter (fun p => emitsVideo w p.2)).map
        (fun p => p.1) ∧
    ((∀ a ∈ entry.assets, shouldSkipAsset a.type = false ∧
        emitKind w a ≠ none) →
      List.Perm
        ((processAssets w entry cd).1.map (fun p => p.orderInEntry) ++
          (processAssets w entry cd).2.1.map (fun v => v.orderInEntry))
        (List.range entry.assets.length)) := by
  have hchar := processAssetsAux_orders w cd entry.assets.enum
  refine ⟨hchar.1, hchar.2, ?_⟩
  intro h
  unfold processAssets
  rw [hchar.1, hchar.2, ← List.map_append]
  have hP : entry.assets.enum.filter (fun p => emitsPhoto w p.2) =
      entry.assets.enum.filter
        (fun p => !isVideoExtension (goToLower p.2.extension)) := by
    apply List.filter_congr
    intro p hp
    obtain ⟨hskip, hne⟩ := h p.2 (snd_mem_of_mem_enum hp)
    simp [emitsPhoto, hskip, emitKind_of_ne_none w p.2 hne]
  have hQ : entry.assets.enum.filter (fun p => emitsVideo w p.2) =
      entry.assets.enum.filter
        (fun p =>
          !(!isVideoExtension (goToLower p.2.extension))) := by
    apply List.filter_congr
    intro p hp
    obtain ⟨hskip, hne⟩ := h p.2 (snd_mem_of_mem_enum hp)
    simp [emitsVideo, hskip, emitKind_of_ne_none w p.2 hne]
  rw [hP, hQ, ← List.enum_map_fst entry.assets]
  exact (List.filter_append_perm _ entry.assets.enum).map Prod.fst

/-- C1 witness: the amended statement evaluated on an entry whose two
assets all emit records, where the combined positions are exactly
`0, 1`. -/
theorem orderInEntry_amended_witness :
    (∀ a ∈ entryC1w.assets, shouldSkipAsset a.type = false ∧
      emitKind wC1w a ≠ none) ∧
    List.Perm
      ((processAssets wC1w entryC1w "cd").1.map (fun p => p.orderInEntry) ++
        (processAssets wC1w entryC1w "cd").2.1.map (fun v => v.orderInEntry))
      (List.range entryC1w.assets.length) := by
  refine ⟨by decide, ?_⟩
  exact (orderInEntry_amended wC1w entryC1w "cd").2.2 (by decide)

/-! ## Claim C2: error propagation of `Convert` -/

/-- When parsing and every staging/archive step succeed, `Convert`
returns the mapped export and writes the archive — independently of the
success of the per-asset media copies, whose failures `processAsset`
swallows. -/
theorem Convert_ok_of_flags (w : World) (uuidAt : Nat → String)
    (now tz : String) (es : List AppleJournalEntry)
    (hp : ParseAll w = .ok es)
    (h1 : w.mkdirTempOk) (h2 : w.mkdirPhotosOk) (h3 : w.mkdirVideosOk)
    (h4 : w.writeJsonOk) (h5 : w.zipCreateOk) (h6 : w.zipWalkOk) :
    Convert w uuidAt now tz =
      { result := .ok (convertEntries w uuidAt now tz es),
        archiveFileCreated := true } := by
  unfold Convert
  rw [hp]
  simp [h1, h2, h3, h4, h5, h6]

/-- Any failing staging or archive-creation step makes `Convert` return
an error without creating a file at the archive path. -/
theorem Convert_staging_error (w : World) (uuidAt : Nat → String)
    (now tz : String) (es : List AppleJournalEntry)
    (hes : ParseAll w = .ok es)
    (hbad : ¬w.mkdirTempOk ∨ ¬w.mkdirPhotosOk ∨ ¬w.mkdirVideosOk ∨
      ¬w.writeJsonOk ∨ ¬w.zipCreateOk) :
    (∃ msg, (Convert w uuidAt now tz).result = .error msg) ∧
      (Convert w uuidAt now tz).archiveFileCreated = false := by
  unfold Convert
  rw [hes]
  by_cases h1 : w.mkdirTempOk
  · by_cases h2 : w.mkdirPhotosOk
    · by_cases h3 : w.mkdirVideosOk
      · by_cases h4 : w.writeJsonOk
        · by_cases h5 : w.zipCreateOk
          · tauto
          · simp [h1, h2, h3, h4, h5]
        · simp [h1, h2, h3, h4]
      · simp [h1, h2, h3]
    · simp [h1, h2]
  · simp [h1]

/-- C2, counterexample: the staging copy of a resolvable asset fails
(`stagingWriteOk` is everywhere false), yet `Convert` returns no error —
the asset is silently dropped (the one entry ends with no photo records)
and the archive is written. -/
theorem Convert_ok_despite_copy_failure :
    GetResourceFilePath wC2 "AAA" ≠ "" ∧
    (copyMediaFile wC2 (GetResourceFilePath wC2 "AAA") "jpg").isOk = false ∧
    (Convert wC2 (fun _ => "u") "now" "tz").result.isOk = true ∧
    (Convert wC2 (fun _ => "u") "now" "tz").result.toOption.map
        (fun ex => ex.entries.map (fun e => e.photos)) = some [[]] := by
  refine ⟨by decide, by decide, by decide, by decide⟩

/-- C2, amended: `Convert` fails, creating no file at the archive path,
when parsing, staging-directory creation, the JSON write, or the
creation of the archive file fails; when writing the archive entries
fails after the archive file was created, it fails with the partial file
left behind; but a failed staging copy of a resolvable asset's media
file is not an error — the asset is dropped and `Convert` succeeds. -/
theorem Convert_error_amended (w : World) (uuidAt : Nat → String)
    (now tz : String) :
    (∀ msg, ParseAll w = .error msg →
      (Convert w uuidAt now tz).result =
        .error ("failed to parse entries: " ++ msg) ∧
      (Convert w uuidAt now tz).archiveFileCreated = false) ∧
    (∀ es, ParseAll w = .ok es →
      ((¬w.mkdirTempOk ∨ ¬w.mkdirPhotosOk ∨ ¬w.mkdirVideosOk ∨
          ¬w.writeJsonOk ∨ ¬w.zipCreateOk) →
        (∃ msg, (Convert w uuidAt now tz).result = .error msg) ∧
        (Convert w uuidAt now tz).archiveFileCreated = false) ∧
      (w.mkdirTempOk → w.mkdirPhotosOk → w.mkdirVideosOk → w.writeJsonOk →
        w.zipCreateOk → ¬w.zipWalkOk →
        (∃ msg, (Convert w uuidAt now tz).result = .error msg) ∧
        (Convert w uuidAt now tz).archiveFileCreated = true) ∧
      (w.mkdirTempOk → w.mkdirPhotosOk → w.mkdirVideosOk → w.writeJsonOk →
        w.zipCreateOk → w.zipWalkOk →
        Convert w uuidAt now tz =
          { result := .ok (convertEntries w uuidAt now tz es),
            archiveFileCreated := true })) := by
  refine ⟨?_, ?_⟩
  · intro msg hmsg
    unfold Convert
    rw [hmsg]
    exact ⟨rfl, rfl⟩
  · intro es hes
    refine ⟨?_, ?_, ?_⟩
    · intro hbad
      exact Convert_staging_error w uuidAt now tz es hes hbad
    · intro h1 h2 h3 h4 h5 h6
      unfold Convert
      rw [hes]
      simp [h1, h2, h3, h4, h5, h6]
    · intro h1 h2 h3 h4 h5 h6
      exact Convert_ok_of_flags w uuidAt now tz es hes h1 h2 h3 h4 h5 h6

/-- C2 witness: the amended statement evaluated on the counterexample
world (success despite failing copies) and on the same world with a
failing archive creation (error, no archive file). -/
theorem Convert_error_amended_witness :
    ParseAll wC2 = .ok esC2 ∧
    Convert wC2 (fun _ => "u") "now" "tz" =
      { result := .ok (convertEntries wC2 (fun _ => "u") "now" "tz" esC2),
        archiveFileCreated := true } ∧
    ParseAll { wC2 with zipCreateOk := false } = .ok esC2 ∧
    (∃ msg, (Convert { wC2 with zipCreateOk := false }
        (fun _ => "u") "now" "tz").result = .error msg) ∧
    (Convert { wC2 with zipCreateOk := false }
        (fun _ => "u") "now" "tz").archiveFileCreated = false := by
  have hp1 : ParseAll wC2 = .ok esC2 := rfl
  have hp2 : ParseAll { wC2 with zipCreateOk := false } = .ok esC2 := rfl
  have h1 := (Convert_error_amended wC2 (fun _ => "u") "now" "tz").2 esC2 hp1
  have h2 := (Convert_error_amended { wC2 with zipCreateOk := false }
    (fun _ => "u") "now" "tz").2 esC2 hp2
  refine ⟨hp1, h1.2.2 rfl rfl rfl rfl rfl rfl, hp2, ?_, ?_⟩
  · exact (h2.1 (by simp [wC2])).1
  · exact (h2.1 (by simp [wC2])).2

/-! ## Claim C7: dangling asset references -/

/-- C7: an asset whose id resolves to no backing file in the resource
store contributes no photo record, no video record and no placeholder
line, its loop step leaves the accumulated output untouched, and
`Convert` still succeeds (its success is decided only by the parse,
staging-directory, JSON and archive steps). -/
theorem unresolvable_asset_contributes_nothing (w : World)
    (a : AppleJournalAsset) (i : Nat) (cd : String)
    (rest : List (Nat × AppleJournalAsset))
    (uuidAt : Nat → String) (now tz : String)
    (es : List AppleJournalEntry)
    (h : GetResourceFilePath w a.id = "") :
    processAsset w a i cd = (none, none, "") ∧
    processAssetsAux w cd ((i, a) :: rest) = processAssetsAux w cd rest ∧
    (ParseAll w = .ok es → w.mkdirTempOk → w.mkdirPhotosOk →
      w.mkdirVideosOk → w.writeJsonOk → w.zipCreateOk → w.zipWalkOk →
      (Convert w uuidAt now tz).result =
        .ok (convertEntries w uuidAt now tz es)) := by
  have hpa : processAsset w a i cd = (none, none, "") := by
    unfold processAsset
    simp [h]
  refine ⟨hpa, ?_, ?_⟩
  · by_cases hs : shouldSkipAsset a.type
    · conv_lhs => rw [processAssetsAux]
      simp [hs]
    · conv_lhs => rw [processAssetsAux]
      simp [hs, hpa]
  · intro hes h1 h2 h3 h4 h5 h6
    rw [Convert_ok_of_flags w uuidAt now tz es hes h1 h2 h3 h4 h5 h6]

/-- C7 witness: the statement evaluated on a world whose resource store
is empty; the conversion succeeds and the produced entry carries no
photos, no videos, and an empty text. -/
theorem unresolvable_asset_witness :
    GetResourceFilePath wC7 "AAA" = "" ∧
    processAsset wC7
      { id := "AAA", type := "photo", filePath := "", extension := "" }
      0 "cd" = (none, none, "") ∧
    (Convert wC7 (fun _ => "u") "now" "tz").result =
      .ok (convertEntries wC7 (fun _ => "u") "now" "tz" esC7) ∧
    (convertEntries wC7 (fun _ => "u") "now" "tz" esC7).entries.map
        (fun e => (e.photos, e.videos, e.text)) = [([], [], "")] := by
  have h := unresolvable_asset_contributes_nothing wC7
    { id := "AAA", type := "photo", filePath := "", extension := "" }
    0 "cd" [] (fun _ => "u") "now" "tz" esC7 (by decide)
  exact ⟨by decide, h.1, h.2.2 rfl rfl rfl rfl rfl rfl rfl, by decide⟩

/-! ## Claim C10: media data comes from the store lookup, not
from the parse-time source path -/

/-- C10: `processAsset` never reads the asset's parse-time
`sourceFilePath` — its result is invariant under changing that field;
an asset with no store match produces no record whatever the parse-time
path said; and when the store lookup finds a file (the first non-JSON
listing name starting with the id), the emitted record's checksum and
size are those of that file's bytes. -/
theorem asset_media_from_store_lookup (w : World) (id ty fp1 fp2 ext : String)
    (i : Nat) (cd : String) :
    processAsset w { id := id, type := ty, filePath := fp1, extension := ext }
        i cd =
      processAsset w { id := id, type := ty, filePath := fp2, extension := ext }
        i cd ∧
    (GetResourceFilePath w id = "" →
      processAsset w { id := id, type := ty, filePath := fp1, extension := ext }
        i cd = (none, none, "")) ∧
    (∀ nm bs, w.resourcesOk →
      w.resourceNames.find?
          (fun s => goHasPrefix s id && !goHasSuffix s ".json") = some nm →
      w.bytesOf (w.basePath ++ "/Resources/" ++ nm) = some bs →
      w.stagingWriteOk (getDestinationPath w ext (w.md5 bs)) = true →
      (∀ p, (processAsset w
          { id := id, type := ty, filePath := fp1, extension := ext }
          i cd).1 = some p →
        p.md5 = w.md5 bs ∧ p.fileSize = (bs.length : Int)) ∧
      (∀ v, (processAsset w
          { id := id, type := ty, filePath := fp1, extension := ext }
          i cd).2.1 = some v →
        v.md5 = w.md5 bs ∧ v.fileSize = (bs.length : Int))) := by
  refine ⟨rfl, ?_, ?_⟩
  · intro h
    unfold processAsset
    simp [h]
  · intro nm bs hok hfind hbytes hwrite
    have hpath : GetResourceFilePath w id = w.basePath ++ "/Resources/" ++ nm := by
      unfold GetResourceFilePath
      simp [hok, hfind]
    have hcopy : copyMediaFile w (GetResourceFilePath w id) ext =
        .ok (w.md5 bs, (bs.length : Int)) := by
      unfold copyMediaFile
      rw [hpath, hbytes]
      simp [hwrite]
    constructor
    · intro p hp
      unfold processAsset at hp
      by_cases hr : GetResourceFilePath w id = ""
      · simp [hr] at hp
      · simp only [if_neg hr, hcopy] at hp
        by_cases hv : isVideoExtension (goToLower ext)
        · simp [hv] at hp
        · simp only [hv, if_false, Bool.false_eq_true] at hp
          cases hp
          exact ⟨rfl, rfl⟩
    · intro v hv'
      unfold processAsset at hv'
      by_cases hr : GetResourceFilePath w id = ""
      · simp [hr] at hv'
      · simp only [if_neg hr, hcopy] at hv'
        by_cases hv : isVideoExtension (goToLower ext)
        · simp only [hv, if_true] at hv'
          cases hv'
          exact ⟨rfl, rfl⟩
        · simp [hv] at hv'

/-- C10 witness: on the C2 world with working staging writes, an asset
whose parse-time source path is an inline HTML path still takes its
bytes from the store file `AAA.jpg`, and with an empty store the same
asset yields no record although its parse-time path is non-empty. -/
theorem asset_media_from_store_lookup_witness :
    ((processAsset { wC2 with stagingWriteOk := fun _ => true }
        { id := "AAA", type := "photo", filePath := "../inline/AAA.jpg",
          extension := "jpg" } 0 "cd").1.map
      (fun p => (p.md5, p.fileSize)) = some ("9e107d9d", 2)) ∧
    processAsset wC7
        { id := "AAA", type := "photo", filePath := "../inline/AAA.jpg",
          extension := "jpg" } 0 "cd" = (none, none, "") := by
  constructor
  · have h := (asset_media_from_store_lookup
      { wC2 with stagingWriteOk := fun _ => true }
      "AAA" "photo" "../inline/AAA.jpg" "x" "jpg" 0 "cd").2.2
      "AAA.jpg" [1, 2] (by decide) (by decide) (by decide) (by decide)
    rcases hp : (processAsset { wC2 with stagingWriteOk := fun _ => true }
        { id := "AAA", type := "photo", filePath := "../inline/AAA.jpg",
          extension := "jpg" } 0 "cd").1 with _ | p
    · exact absurd hp (by decide)
    · have hmd := h.1 p hp
      simp only [hp, Option.map_some']
      rw [hmd.1, hmd.2]
      rfl
  · exact (asset_media_from_store_lookup wC7
      "AAA" "photo" "../inline/AAA.jpg" "x" "jpg" 0 "cd").2.1 (by decide)

/-! ## Claim C4: deterministic attachment identifiers, random entry uuid -/

/-- Uppercasing is injective on the hex alphabet. -/
theorem toUpper_inj_on_hex :
    ∀ x ∈ hexLowerChars, ∀ y ∈ hexLowerChars,
      Char.toUpper x = Char.toUpper y → x = y := by decide

/-- No hex digit is a dash. -/
theorem hex_ne_dash : ∀ x ∈ hexLowerChars, x ≠ '-' := by decide

/-- Mapping `Char.toUpper` is injective on lists of hex digits. -/
theorem map_toUpper_inj (l1 l2 : List Char)
    (h1 : ∀ x ∈ l1, x ∈ hexLowerChars) (h2 : ∀ x ∈ l2, x ∈ hexLowerChars)
    (h : l1.map Char.toUpper = l2.map Char.toUpper) : l1 = l2 := by
  induction l1 generalizing l2 with
  | nil => cases l2 <;> simp_all
  | cons x xs ih =>
    cases l2 with
    | nil => simp_all
    | cons y ys =>
      simp only [List.map_cons, List.cons.injEq] at h
      have hx := h1 x (List.mem_cons_self x xs)
      have hy := h2 y (List.mem_cons_self y ys)
      have hxs : ∀ z ∈ xs, z ∈ hexLowerChars :=
        fun z hz => h1 z (List.mem_cons_of_mem x hz)
      have hys : ∀ z ∈ ys, z ∈ hexLowerChars :=
        fun z hz => h2 z (List.mem_cons_of_mem y hz)
      exact List.cons_eq_cons.mpr
        ⟨toUpper_inj_on_hex x hx y hy h.1, ih ys hxs hys h.2⟩

/-- The `(index, asset)` step of the asset loop, written out. -/
theorem processAssetsAux_cons (w : World) (cd : String) (i : Nat)
    (a : AppleJournalAsset) (rest : List (Nat × AppleJournalAsset)) :
    processAssetsAux w cd ((i, a) :: rest) =
      if shouldSkipAsset a.type then processAssetsAux w cd rest
      else
        ((match (processAsset w a i cd).1 with
          | some photo => photo :: (processAssetsAux w cd rest).1
          | none => (processAssetsAux w cd rest).1),
         (match (processAsset w a i cd).2.1 with
          | some video => video :: (processAssetsAux w cd rest).2.1
          | none => (processAssetsAux w cd rest).2.1),
         (match (processAsset w a i cd).1 with
          | some _ =>
            (processAsset w a i cd).2.2 :: (processAssetsAux w cd rest).2.2
          | none => (processAssetsAux w cd rest).2.2)) := by
  conv_lhs => rw [processAssetsAux]
  by_cases hs : shouldSkipAsset a.type
  · simp [hs]
  · simp only [hs, if_false, Bool.false_eq_true]
    cases hp1 : (processAsset w a i cd).1 <;>
      cases hp2 : (processAsset w a i cd).2.1 <;>
      simp [hp1, hp2]

/-- Filtering out dashes leaves a hex-digit list unchanged. -/
theorem filter_no_dash (l : List Char) (h : ∀ x ∈ l, x ∈ hexLowerChars) :
    l.filter (fun c => c ≠ '-') = l := by
  apply List.filter_eq_self.mpr
  intro x hx
  simpa using hex_ne_dash x (h x hx)

/-- On canonical UUID strings, the converter's
uppercase-and-strip-dashes identifier derivation is injective: distinct
fresh UUIDs give distinct entry identifiers. -/
theorem sanitize_uuid_inj (u1 u2 : String)
    (h1 : IsCanonicalUUID u1) (h2 : IsCanonicalUUID u2) (hne : u1 ≠ u2) :
    goToUpper (goRemoveDashes u1) ≠ goToUpper (goRemoveDashes u2) := by
  obtain ⟨a1, b1, c1, d1, e1, la1, lb1, lc1, ld1, le1, hx1, hd1⟩ := h1
  obtain ⟨a2, b2, c2, d2, e2, la2, lb2, lc2, ld2, le2, hx2, hd2⟩ := h2
  intro heq
  apply hne
  have hdata : (u1.data.filter (fun c => c ≠ '-')).map Char.toUpper =
      (u2.data.filter (fun c => c ≠ '-')).map Char.toUpper :=
    congrArg String.data heq
  have hfilter : ∀ (a b c d e : List Char),
      (∀ x ∈ a ++ b ++ c ++ d ++ e, x ∈ hexLowerChars) →
      (a ++ '-' :: (b ++ '-' :: (c ++ '-' :: (d ++ '-' :: e)))).filter
          (fun c => c ≠ '-') = a ++ (b ++ (c ++ (d ++ e))) := by
    intro a b c d e hx
    have ha : ∀ x ∈ a, x ∈ hexLowerChars := fun x hxm => hx x (by simp [hxm])
    have hb : ∀ x ∈ b, x ∈ hexLowerChars := fun x hxm => hx x (by simp [hxm])
    have hc : ∀ x ∈ c, x ∈ hexLowerChars := fun x hxm => hx x (by simp [hxm])
    have hd : ∀ x ∈ d, x ∈ hexLowerChars := fun x hxm => hx x (by simp [hxm])
    have he : ∀ x ∈ e, x ∈ hexLowerChars := fun x hxm => hx x (by simp [hxm])
    rw [List.filter_append, List.filter_cons_of_neg (by decide),
      List.filter_append, List.filter_cons_of_neg (by decide),
      List.filter_append, List.filter_cons_of_neg (by decide),
      List.filter_append, List.filter_cons_of_neg (by decide),
      filter_no_dash a ha, filter_no_dash b hb, filter_no_dash c hc,
      filter_no_dash d hd, filter_no_dash e he]
  rw [hd1, hd2, hfilter a1 b1 c1 d1 e1 hx1, hfilter a2 b2 c2 d2 e2 hx2]
    at hdata
  have hcat : a1 ++ (b1 ++ (c1 ++ (d1 ++ e1))) =
      a2 ++ (b2 ++ (c2 ++ (d2 ++ e2))) := by
    apply map_toUpper_inj _ _ _ _ hdata
    · intro x hxm
      exact hx1 x (by simpa [List.append_assoc] using hxm)
    · intro x hxm
      exact hx2 x (by simpa [List.append_assoc] using hxm)
  obtain ⟨hae, hrest1⟩ := List.append_inj hcat (la1.trans la2.symm)
  obtain ⟨hbe, hrest2⟩ := List.append_inj hrest1 (lb1.trans lb2.symm)
  obtain ⟨hce, hrest3⟩ := List.append_inj hrest2 (lc1.trans lc2.symm)
  obtain ⟨hde, hee⟩ := List.append_inj hrest3 (ld1.trans ld2.symm)
  have : u1.data = u2.data := by rw [hd1, hd2, hae, hbe, hce, hde, hee]
  cases u1; cases u2
  exact congrArg String.mk this

/-- An emitted record's identifier is the asset id with dashes stripped
and uppercased. -/
theorem processAsset_identifier (w : World) (a : AppleJournalAsset)
    (i : Nat) (cd : String) :
    (∀ p, (processAsset w a i cd).1 = some p →
      p.identifier = goToUpper (goRemoveDashes a.id)) ∧
    (∀ v, (processAsset w a i cd).2.1 = some v →
      v.identifier = goToUpper (goRemoveDashes a.id)) := by
  unfold processAsset
  by_cases hr : GetResourceFilePath w a.id = ""
  · simp [hr]
  · simp only [if_neg hr]
    rcases hc : copyMediaFile w (GetResourceFilePath w a.id) a.extension
      with e | mf
    · simp
    · by_cases hv : isVideoExtension (goToLower a.extension)
      · constructor
        · intro p hp
          simp [hv] at hp
        · intro v hvv
          simp only [hv, if_true] at hvv
          cases hvv
          rfl
      · constructor
        · intro p hp
          simp only [hv, if_false, Bool.false_eq_true] at hp
          cases hp
          rfl
        · intro v hvv
          simp [hv] at hvv

/-- Every record of the asset loop takes its identifier from one of the
entry's assets. -/
theorem processAssetsAux_identifiers (w : World) (cd : String)
    (l : List (Nat × AppleJournalAsset)) :
    (∀ p ∈ (processAssetsAux w cd l).1, ∃ q ∈ l,
      p.identifier = goToUpper (goRemoveDashes q.2.id)) ∧
    (∀ v ∈ (processAssetsAux w cd l).2.1, ∃ q ∈ l,
      v.identifier = goToUpper (goRemoveDashes q.2.id)) := by
  induction l with
  | nil => simp [processAssetsAux]
  | cons hd tl ih =>
    obtain ⟨i, a⟩ := hd
    rw [processAssetsAux_cons]
    have hlift : ∀ s : String,
        (∃ q ∈ tl, s = goToUpper (goRemoveDashes q.2.id)) →
        ∃ q ∈ (i, a) :: tl, s = goToUpper (goRemoveDashes q.2.id) := by
      intro s hq
      obtain ⟨q, hq1, hq2⟩ := hq
      exact ⟨q, List.mem_cons_of_mem _ hq1, hq2⟩
    by_cases hs : shouldSkipAsset a.type
    · simp only [hs, if_true]
      exact ⟨fun p hp => hlift _ (ih.1 p hp), fun v hv => hlift _ (ih.2 v hv)⟩
    · simp only [hs, if_false, Bool.false_eq_true]
      constructor
      · intro p hp
        rcases hp1 : (processAsset w a i cd).1 with _ | photo
        · simp only [hp1] at hp
          exact hlift _ (ih.1 p hp)
        · simp only [hp1, List.mem_cons] at hp
          rcases hp with rfl | hp
          · exact ⟨(i, a), List.mem_cons_self _ _,
              ((processAsset_identifier w a i cd).1 _ hp1).symm ▸ rfl⟩
          · exact hlift _ (ih.1 p hp)
      · intro v hv
        rcases hp2 : (processAsset w a i cd).2.1 with _ | video
        · simp only [hp2] at hv
          exact hlift _ (ih.2 v hv)
        · simp only [hp2, List.mem_cons] at hv
          rcases hv with rfl | hv
          · exact ⟨(i, a), List.mem_cons_self _ _,
              ((processAsset_identifier w a i cd).2 _ hp2).symm ▸ rfl⟩
          · exact hlift _ (ih.2 v hv)

/-- A successful `Convert` returns exactly the mapped export of the
parsed entries. -/
theorem Convert_ok_inv (w : World) (uuidAt : Nat → String)
    (now tz : String) (ex : DayOneExport)
    (h : (Convert w uuidAt now tz).result = .ok ex) :
    ∃ es, ParseAll w = .ok es ∧ ex = convertEntries w uuidAt now tz es := by
  unfold Convert at h
  rcases hp : ParseAll w with e | es
  · rw [hp] at h
    simp at h
  · rw [hp] at h
    refine ⟨es, rfl, ?_⟩
    split_ifs at h
    all_goals simp_all

/-- C4: the photo and video attachment records of a converted entry do
not depend on the drawn entry UUID or on the wall-clock instant, and
every record's identifier is derived from an asset id by stripping
dashes and uppercasing; the entry-level uuid is exactly the freshly
drawn random value so transformed, and two distinct canonical fresh
values give distinct entry uuids; consequently two `Convert` runs over
the same world produce pairwise identical photo and video record lists
while entry uuids follow the per-run random draws. -/
theorem convert_attachments_deterministic (w : World)
    (entry : AppleJournalEntry) (tz u1 u2 now1 now2 : String)
    (uuidAt1 uuidAt2 : Nat → String) :
    (convertEntry w u1 now1 tz entry).photos =
      (convertEntry w u2 now2 tz entry).photos ∧
    (convertEntry w u1 now1 tz entry).videos =
      (convertEntry w u2 now2 tz entry).videos ∧
    (∀ p ∈ (convertEntry w u1 now1 tz entry).photos, ∃ a ∈ entry.assets,
      p.identifier = goToUpper (goRemoveDashes a.id)) ∧
    (∀ v ∈ (convertEntry w u1 now1 tz entry).videos, ∃ a ∈ entry.assets,
      v.identifier = goToUpper (goRemoveDashes a.id)) ∧
    (convertEntry w u1 now1 tz entry).uuid = goToUpper (goRemoveDashes u1) ∧
    (IsCanonicalUUID u1 → IsCanonicalUUID u2 → u1 ≠ u2 →
      (convertEntry w u1 now1 tz entry).uuid ≠
        (convertEntry w u2 now2 tz entry).uuid) ∧
    (∀ ex1 ex2, (Convert w uuidAt1 now1 tz).result = .ok ex1 →
      (Convert w uuidAt2 now2 tz).result = .ok ex2 →
      ex1.entries.map (fun e => e.photos) =
        ex2.entries.map (fun e => e.photos) ∧
      ex1.entries.map (fun e => e.videos) =
        ex2.entries.map (fun e => e.videos)) := by
  have hid := processAssetsAux_identifiers w
    (formatISO8601 entry.date) entry.assets.enum
  refine ⟨rfl, rfl, ?_, ?_, rfl, ?_, ?_⟩
  · intro p hp
    obtain ⟨q, hq, hqe⟩ := hid.1 p hp
    exact ⟨q.2, snd_mem_of_mem_enum hq, hqe⟩
  · intro v hv
    obtain ⟨q, hq, hqe⟩ := hid.2 v hv
    exact ⟨q.2, snd_mem_of_mem_enum hq, hqe⟩
  · intro h1 h2 hne
    exact sanitize_uuid_inj u1 u2 h1 h2 hne
  · intro ex1 ex2 hok1 hok2
    obtain ⟨es1, hp1, he1⟩ := Convert_ok_inv w uuidAt1 now1 tz ex1 hok1
    obtain ⟨es2, hp2, he2⟩ := Convert_ok_inv w uuidAt2 now2 tz ex2 hok2
    have hes : es1 = es2 := by
      rw [hp1] at hp2
      exact Except.ok.inj hp2
    subst hes
    subst he1
    subst he2
    constructor <;>
      simp [convertEntries, convertEntry, List.map_map, Function.comp]

/-- C4 witness: two runs over the same world with different fresh UUIDs
and different wall clocks yield identical photo and video record lists
and distinct entry uuids. -/
theorem convert_attachments_deterministic_witness :
    IsCanonicalUUID "123e4567-e89b-12d3-a456-426614174000" ∧
    IsCanonicalUUID "00000000-0000-4000-8000-000000000000" ∧
    (convertEntry wC4 "123e4567-e89b-12d3-a456-426614174000" "n1" "tz"
        (esC4.get ⟨0, by decide⟩)).uuid ≠
      (convertEntry wC4 "00000000-0000-4000-8000-000000000000" "n2" "tz"
        (esC4.get ⟨0, by decide⟩)).uuid ∧
    ((Convert wC4 (fun _ => "123e4567-e89b-12d3-a456-426614174000") "n1"
        "tz").result =
      .ok (convertEntries wC4
        (fun _ => "123e4567-e89b-12d3-a456-426614174000") "n1" "tz" esC4)) ∧
    (∀ ex1 ex2,
      (Convert wC4 (fun _ => "123e4567-e89b-12d3-a456-426614174000") "n1"
          "tz").result = .ok ex1 →
      (Convert wC4 (fun _ => "00000000-0000-4000-8000-000000000000") "n2"
          "tz").result = .ok ex2 →
      ex1.entries.map (fun e => e.photos) =
        ex2.entries.map (fun e => e.photos)) := by
  have hc1 : IsCanonicalUUID "123e4567-e89b-12d3-a456-426614174000" :=
    ⟨"123e4567".data, "e89b".data, "12d3".data, "a456".data,
     "426614174000".data, by decide, by decide, by decide, by decide,
     by decide, by decide, by decide⟩
  have hc2 : IsCanonicalUUID "00000000-0000-4000-8000-000000000000" :=
    ⟨"00000000".data, "0000".data, "4000".data, "8000".data,
     "000000000000".data, by decide, by decide, by decide, by decide,
     by decide, by decide, by decide⟩
  refine ⟨hc1, hc2, ?_, ?_, ?_⟩
  · exact (convert_attachments_deterministic wC4 (esC4.get ⟨0, by decide⟩)
      "tz" "123e4567-e89b-12d3-a456-426614174000"
      "00000000-0000-4000-8000-000000000000" "n1" "n2"
      (fun _ => "u") (fun _ => "u")).2.2.2.2.2.1 hc1 hc2 (by decide)
  · have : ParseAll wC4 = .ok esC4 := rfl
    rw [Convert_ok_of_flags wC4
      (fun _ => "123e4567-e89b-12d3-a456-426614174000") "n1" "tz" esC4
      this rfl rfl rfl rfl rfl rfl]
  · intro ex1 ex2 h1 h2
    exact ((convert_attachments_deterministic wC4 (esC4.get ⟨0, by decide⟩)
      "tz" "u" "u" "n1" "n2"
      (fun _ => "123e4567-e89b-12d3-a456-426614174000")
      (fun _ => "00000000-0000-4000-8000-000000000000")).2.2.2.2.2.2
      ex1 ex2 h1 h2).1

/-! ## The body and date disciplines of the tree walk (claims C5, C6,
C9) -/

/-- What the div dispatch does to the entry body: only the body-text
branch touches it, and only with a non-empty extracted text. -/
theorem processDivElement_body (w : World) (n : HNode)
    (e : AppleJournalEntry) :
    (processDivElement w n e).body =
      if isBodyTextCls (getAttr n "class") then
        (if extractBodyText n = "" then e.body else extractBodyText n)
      else e.body := by
  unfold processDivElement isBodyTextCls
  by_cases h1 : goContains (getAttr n "class") "pageHeader"
  · simp [h1]
  · by_cases h2 : goContains (getAttr n "class") "title"
    · simp [h1, h2]
    · by_cases h3 : goContains (getAttr n "class") "gridItem"
      · simp only [h1, h2, h3, if_true, if_false, Bool.false_eq_true,
          Bool.not_false, Bool.and_self, Bool.true_and, Bool.not_true,
          Bool.false_and, Bool.and_false]
        cases parseGridItem w n <;> simp
      · by_cases h4 : goContains (getAttr n "class") "bodyText"
        · by_cases h5 : extractBodyText n = "" <;>
            simp [h1, h2, h3, h4, h5]
        · simp [h1, h2, h3, h4]

/-- What the div dispatch does to the entry date: only the page-header
branch touches it, and it overwrites unconditionally. -/
theorem processDivElement_date (w : World) (n : HNode)
    (e : AppleJournalEntry) :
    (processDivElement w n e).date =
      if isPageHeaderCls (getAttr n "class") then
        parsePageHeaderDate (getTextContent n)
      else e.date := by
  unfold processDivElement isPageHeaderCls
  by_cases h1 : goContains (getAttr n "class") "pageHeader"
  · simp [h1]
  · by_cases h2 : goContains (getAttr n "class") "title"
    · simp [h1, h2]
    · by_cases h3 : goContains (getAttr n "class") "gridItem"
      · simp only [h1, h2, h3, if_true, if_false, Bool.false_eq_true]
        cases parseGridItem w n <;> simp
      · by_cases h4 : goContains (getAttr n "class") "bodyText"
        · by_cases h5 : extractBodyText n = "" <;>
            simp [h1, h2, h3, h4, h5]
        · simp [h1, h2, h3, h4]

mutual

/-- The body after walking a subtree: the last-non-empty fold of the
body texts the subtree contributes, in document order. -/
theorem extractFromNode_body (w : World) (n : HNode)
    (e : AppleJournalEntry) :
    (extractFromNode w n e).body = lastNonEmptyFrom e.body (bodyTexts n) := by
  cases n with
  | text d => rfl
  | other cs => exact extractFromList_body w cs e
  | element tag attrs cs =>
    by_cases ht : tag = "div"
    · have h1 : extractFromNode w (.element tag attrs cs) e =
          extractFromList w cs
            (processDivElement w (.element tag attrs cs) e) := by
        show extractFromList w cs _ = _
        rw [if_pos ht]
      rw [h1, extractFromList_body, processDivElement_body]
      show _ = lastNonEmptyFrom e.body
        ((if tag == "div" && isBodyTextCls (getAttrOf attrs "class") then
            [extractBodyText (.element tag attrs cs)]
          else []) ++ bodyTextsList cs)
      unfold lastNonEmptyFrom
      rw [List.foldl_append]
      by_cases hcl : isBodyTextCls (getAttrOf attrs "class")
      · simp only [ht, hcl, getAttr, if_pos, Bool.and_true, beq_self_eq_true,
          Bool.true_and, if_true, List.foldl_cons, List.foldl_nil]
      · simp only [ht, hcl, getAttr, Bool.and_false, if_false,
          Bool.false_eq_true, List.foldl_nil]
    · have h1 : extractFromNode w (.element tag attrs cs) e =
          extractFromList w cs e := by
        show extractFromList w cs _ = _
        rw [if_neg ht]
      rw [h1, extractFromList_body]
      have hb : (tag == "div" && isBodyTextCls (getAttrOf attrs "class")) =
          false := by
        have : (tag == "div") = false := by
          simpa using ht
        simp [this]
      show _ = lastNonEmptyFrom e.body
        ((if tag == "div" && isBodyTextCls (getAttrOf attrs "class") then
            [extractBodyText (.element tag attrs cs)]
          else []) ++ bodyTextsList cs)
      rw [hb]
      simp only [if_false, Bool.false_eq_true, List.nil_append]

/-- The sibling-loop form of `extractFromNode_body`. -/
theorem extractFromList_body (w : World) (ns : List HNode)
    (e : AppleJournalEntry) :
    (extractFromList w ns e).body =
      lastNonEmptyFrom e.body (bodyTextsList ns) := by
  cases ns with
  | nil => rfl
  | cons c rest =>
    show (extractFromList w rest (extractFromNode w c e)).body = _
    rw [extractFromList_body w rest, extractFromNode_body w c]
    show _ = lastNonEmptyFrom e.body (bodyTexts c ++ bodyTextsList rest)
    unfold lastNonEmptyFrom
    rw [List.foldl_append]

end

mutual

/-- The date after walking a subtree: the unconditional overwrite fold
of the page-header texts the subtree contributes, in document order. -/
theorem extractFromNode_date (w : World) (n : HNode)
    (e : AppleJournalEntry) :
    (extractFromNode w n e).date = overwriteFold e.date (pageHeaderTexts n) := by
  cases n with
  | text d => rfl
  | other cs => exact extractFromList_date w cs e
  | element tag attrs cs =>
    by_cases ht : tag = "div"
    · have h1 : extractFromNode w (.element tag attrs cs) e =
          extractFromList w cs
            (processDivElement w (.element tag attrs cs) e) := by
        show extractFromList w cs _ = _
        rw [if_pos ht]
      rw [h1, extractFromList_date, processDivElement_date]
      show _ = overwriteFold e.date
        ((if tag == "div" && isPageHeaderCls (getAttrOf attrs "class") then
            [getTextContent (.element tag attrs cs)]
          else []) ++ pageHeaderTextsList cs)
      unfold overwriteFold
      rw [List.foldl_append]
      by_cases hcl : isPageHeaderCls (getAttrOf attrs "class")
      · simp only [ht, hcl, getAttr, Bool.and_true, beq_self_eq_true,
          Bool.true_and, if_true, List.foldl_cons, List.foldl_nil]
      · simp only [ht, hcl, getAttr, Bool.and_false, if_false,
          Bool.false_eq_true, List.foldl_nil]
    · have h1 : extractFromNode w (.element tag attrs cs) e =
          extractFromList w cs e := by
        show extractFromList w cs _ = _
        rw [if_neg ht]
      rw [h1, extractFromList_date]
      have hb : (tag == "div" && isPageHeaderCls (getAttrOf attrs "class")) =
          false := by
        have : (tag == "div") = false := by
          simpa using ht
        simp [this]
      show _ = overwriteFold e.date
        ((if tag == "div" && isPageHeaderCls (getAttrOf attrs "class") then
            [getTextContent (.element tag attrs cs)]
          else []) ++ pageHeaderTextsList cs)
      rw [hb]
      simp only [if_false, Bool.false_eq_true, List.nil_append]

/-- The sibling-loop form of `extractFromNode_date`. -/
theorem extractFromList_date (w : World) (ns : List HNode)
    (e : AppleJournalEntry) :
    (extractFromList w ns e).date =
      overwriteFold e.date (pageHeaderTextsList ns) := by
  cases ns with
  | nil => rfl
  | cons c rest =>
    show (extractFromList w rest (extractFromNode w c e)).date = _
    rw [extractFromList_date w rest, extractFromNode_date w c]
    show _ = overwriteFold e.date (pageHeaderTexts c ++ pageHeaderTextsList rest)
    unfold overwriteFold
    rw [List.foldl_append]

end

/-- The last-non-empty fold equals the last element of the blank-filtered
list (with the start value as default). -/
theorem lastNonEmptyFrom_eq_getLastD (ts : List String) (b : String) :
    lastNonEmptyFrom b ts = (ts.filter (fun t => t ≠ "")).getLastD b := by
  induction ts generalizing b with
  | nil => rfl
  | cons t ts ih =>
    by_cases h : t = ""
    · show lastNonEmptyFrom (if t = "" then b else t) ts = _
      rw [if_pos h, ih b]
      have : (t :: ts).filter (fun t => t ≠ "") = ts.filter (fun t => t ≠ "") := by
        simp [List.filter_cons, h]
      rw [this]
    · show lastNonEmptyFrom (if t = "" then b else t) ts = _
      rw [if_neg h, ih t]
      have : (t :: ts).filter (fun t => t ≠ "") =
          t :: ts.filter (fun t => t ≠ "") := by
        simp [List.filter_cons, h]
      rw [this, List.getLastD_cons]

/-- The unconditional overwrite fold of a non-empty list is the parse of
its last element. -/
theorem overwriteFold_ne_nil (ts : List String) (b : Int) (h : ts ≠ []) :
    overwriteFold b ts = parsePageHeaderDate (ts.getLastD "") := by
  induction ts generalizing b with
  | nil => cases h rfl
  | cons t ts ih =>
    rcases ts with _ | ⟨t2, ts2⟩
    · rfl
    · show overwriteFold (parsePageHeaderDate t) (t2 :: ts2) = _
      rw [ih (parsePageHeaderDate t) (by simp)]
      simp [List.getLastD_cons]

/-- `ParseEntry` on a parsed document: the walked entry with the date
replaced by the two-step fallback resolution. -/
theorem ParseEntry_ok_eq (w : World) (fp : String) (doc : HNode) :
    ParseEntry w fp (.ok doc) =
      .ok { extractEntry w fp doc with
            date := resolveDate w fp (extractEntry w fp doc) } := by
  unfold ParseEntry resolveDate
  by_cases h1 : (extractEntry w fp doc).date = 0
  · by_cases h2 : extractDateFromAssets w (extractEntry w fp doc).assets = 0
    · simp [h1, h2]
    · simp [h1, h2]
  · simp [h1]

/-- A positive Cocoa offset lands strictly after the Go zero time. -/
theorem cocoa_pos (q : Rat) (h : 0 < q) : 0 < CocoaTimestampToTime q := by
  unfold CocoaTimestampToTime truncTowardZero
  have hprod : (0 : Rat) < q * (nsPerSecond : Rat) :=
    mul_pos h (by norm_num [nsPerSecond])
  have hq : ¬ q * (nsPerSecond : Rat) < 0 := by
    push_neg
    exact le_of_lt hprod
  rw [if_neg hq]
  have hfloor : (0 : Int) ≤ ⌊q * (nsPerSecond : Rat)⌋ :=
    Int.floor_nonneg.mpr (le_of_lt hprod)
  have hepoch : (0 : Int) < appleCocoaEpoch := by decide
  omega

/-- C6: the parsed entry's body is the extracted text of the last
body-text-dispatched block in document order whose extracted text is
non-empty (and empty when no such block exists): an empty extraction
never overwrites an earlier body. -/
theorem body_from_last_nonempty_block (w : World) (fp : String)
    (doc : HNode) :
    ∃ e, ParseEntry w fp (.ok doc) = .ok e ∧
      e.body = ((bodyTexts doc).filter (fun t => t ≠ "")).getLastD "" := by
  refine ⟨_, ParseEntry_ok_eq w fp doc, ?_⟩
  show (extractEntry w fp doc).body = _
  unfold extractEntry
  rw [extractFromNode_body]
  exact lastNonEmptyFrom_eq_getLastD _ _

/-- C5: when the page-header date is absent after the walk, the entry
date is resolved in order: first asset's metadata date (when an asset
exists, its metadata loads, and the date field is positive) through the
Cocoa adapter; otherwise the file-name date; and the file-name step
itself yields the zero value when no leading date pattern is present. -/
theorem date_resolution_order (w : World) (fp : String) (doc : HNode)
    (h0 : (extractEntry w fp doc).date = 0) :
    (∃ e, ParseEntry w fp (.ok doc) = .ok e ∧
      e.date =
        (match (extractEntry w fp doc).assets with
         | [] => extractDateFromFilename fp
         | a :: _ =>
           match LoadResourceMeta w a.id with
           | none => extractDateFromFilename fp
           | some meta =>
             if meta.date > 0 then CocoaTimestampToTime meta.date
             else extractDateFromFilename fp)) ∧
    (fnameDatePrefix (goBase fp).data = none →
      extractDateFromFilename fp = 0) := by
  constructor
  · refine ⟨_, ParseEntry_ok_eq w fp doc, ?_⟩
    show resolveDate w fp (extractEntry w fp doc) = _
    unfold resolveDate
    rw [if_pos h0]
    rcases ha : (extractEntry w fp doc).assets with _ | ⟨a, rest⟩
    · simp [extractDateFromAssets]
    · show (if extractDateFromAssets w (a :: rest) = 0 then
          extractDateFromFilename fp
        else extractDateFromAssets w (a :: rest)) = _
      unfold extractDateFromAssets
      rcases hm : LoadResourceMeta w a.id with _ | meta
      · simp [hm]
      · simp only [hm]
        by_cases hq : meta.date > 0
        · have hle : ¬ meta.date ≤ 0 := not_le.mpr hq
          have hpos := cocoa_pos meta.date hq
          simp only [hle, if_false, Bool.false_eq_true, hq, if_true]
          rw [if_neg (by omega)]
        · have hle : meta.date ≤ 0 := not_lt.mp hq
          simp [hle, hq]
  · intro h
    unfold extractDateFromFilename
    rw [h]

/-- C9: with several page-header blocks the walk keeps the date of the
last one in depth-first document order, overwriting unconditionally; in
particular when the last block's text parses under none of the four
formats, the date collapses to the zero value and the asset-metadata /
file-name fallbacks take over. -/
theorem date_from_last_page_header (w : World) (fp : String) (doc : HNode)
    (h2 : 2 ≤ (pageHeaderTexts doc).length) :
    (extractEntry w fp doc).date =
      parsePageHeaderDate ((pageHeaderTexts doc).getLastD "") ∧
    (parsePageHeaderDate ((pageHeaderTexts doc).getLastD "") = 0 →
      ∃ e, ParseEntry w fp (.ok doc) = .ok e ∧
        e.date =
          (if extractDateFromAssets w (extractEntry w fp doc).assets = 0 then
            extractDateFromFilename fp
          else extractDateFromAssets w (extractEntry w fp doc).assets)) := by
  have hne : pageHeaderTexts doc ≠ [] := by
    intro hnil
    rw [hnil] at h2
    simp at h2
  have hdate : (extractEntry w fp doc).date =
      parsePageHeaderDate ((pageHeaderTexts doc).getLastD "") := by
    unfold extractEntry
    rw [extractFromNode_date]
    exact overwriteFold_ne_nil _ 0 hne
  refine ⟨hdate, ?_⟩
  intro hz
  refine ⟨_, ParseEntry_ok_eq w fp doc, ?_⟩
  show resolveDate w fp (extractEntry w fp doc) = _
  unfold resolveDate
  rw [if_pos (hdate.trans hz)]

/-- C5 witness: a document with no page-header date and one asset whose
metadata date is `5` resolves to the Cocoa adapter's value (the file
name carries no date pattern). -/
theorem date_resolution_order_witness :
    (extractEntry wC5 "/j/Entries/nodate.html" docC5).date = 0 ∧
    (∃ e, ParseEntry wC5 "/j/Entries/nodate.html" (.ok docC5) = .ok e ∧
      e.date = CocoaTimestampToTime 5) := by
  have h0 : (extractEntry wC5 "/j/Entries/nodate.html" docC5).date = 0 := by
    decide
  refine ⟨h0, ?_⟩
  obtain ⟨⟨e, he, hd⟩, _⟩ :=
    date_resolution_order wC5 "/j/Entries/nodate.html" docC5 h0
  refine ⟨e, he, ?_⟩
  rw [hd]
  rfl

/-- C9 witness: the earlier page-header block parses to a real date, the
later one parses to nothing, and the entry date ends up taken from the
file name — the later block reset the earlier date. -/
theorem date_from_last_page_header_witness :
    2 ≤ (pageHeaderTexts docC9).length ∧
    parsePageHeaderDate "2 January 2006" ≠ 0 ∧
    parsePageHeaderDate ((pageHeaderTexts docC9).getLastD "") = 0 ∧
    (extractEntry wC9 "/j/Entries/2020-05-06_y.html" docC9).date = 0 ∧
    (∃ e, ParseEntry wC9 "/j/Entries/2020-05-06_y.html" (.ok docC9) =
        .ok e ∧
      e.date = goDateNanos 2020 5 6) := by
  have h2 : 2 ≤ (pageHeaderTexts docC9).length := by decide
  have hthm :=
    date_from_last_page_header wC9 "/j/Entries/2020-05-06_y.html" docC9 h2
  refine ⟨h2, by decide, by decide, ?_, ?_⟩
  · rw [hthm.1]
    decide
  · obtain ⟨e, he, hd⟩ := hthm.2 (by decide)
    refine ⟨e, he, ?_⟩
    rw [hd]
    rfl

/-- C3 witness: the amended statement applied to the video-first
iteration order and a class attribute with exactly one matching marker. -/
theorem extractAssetType_amended_witness :
    List.Perm typeMapVideoFirst typeMapList ∧
    matchingMarkers typeMapList "gridItem assetType_audio" =
      [("assetType_audio", "audio")] ∧
    extractAssetTypeWith typeMapVideoFirst "gridItem assetType_audio" =
      "audio" := by
  refine ⟨by decide, by decide, ?_⟩
  exact (extractAssetType_amended typeMapVideoFirst "gridItem assetType_audio"
    (by decide)).2.2 "assetType_audio" "audio" (by decide)

end J2D
